import Mathlib

/-!
Verification of the Slang serialization container orchestrator
(`source/slang/slang-serialize-container.cpp`, `SerialContainerUtil`).

The orchestrator composes per-module IR/AST payloads, per-target IR payloads,
entry-point records, a string table and debug info into one RIFF-style chunked
container (`write`), decomposes such a container back into a
`SerialContainerData` snapshot (`read`), extracts the snapshot from a live
compile request (`requestToData`), and round-trip checks an IR module
(`verifyIRSerialize`).

The sub-codecs the orchestrator calls (RiffContainer, StringSlicePool,
IRSerialWriter/Reader, SerialWriter/Reader for the AST, the source-location
codec) live outside the sources under verification; each of those is modelled
from the specification, as documented on the corresponding definition.  The
orchestrator's own control flow is translated statement by statement from the
source file.
-/

namespace Slang

/-- A resolved (humane) source location: line, column and the found path of
the source file, as produced by `SourceView::getHumaneLoc`. -/
structure HumaneLoc where
  line : Nat
  column : Nat
  foundPath : String
deriving DecidableEq, Repr

/-- Modelled from the spec: a source manager resolves a raw source-location
value to a humane location (`findSourceView` + `getHumaneLoc`); an association
list from raw location values to humane locations.  The raw value 0 is the
null location and never resolves. -/
def SourceMgr : Type := List (Nat × HumaneLoc)

/-- First association for a key in an association list. -/
def assocFind {α : Type} (r : Nat) : List (Nat × α) → Option α
  | [] => none
  | (k, v) :: rest => if k = r then some v else assocFind r rest

/-- Modelled from the spec: resolving a raw source location against a source
manager.  Location 0 is "no location" and resolves to nothing. -/
def resolveLoc (mgr : SourceMgr) (r : Nat) : Option HumaneLoc :=
  if r = 0 then none else assocFind r mgr

/-- One IR instruction as seen by the orchestrator / verifier: an op-code, the
operand indices into the flattened instruction list, and a raw source
location (0 = none). -/
structure IRInst where
  op : Nat
  operands : List Nat
  sourceLoc : Nat
deriving DecidableEq, Repr

/-- An IR module, identified with its flattened instruction list
(`IRSerialWriter::calcInstructionList`); entry 0 is the module instruction
itself. -/
structure IRModuleModel where
  insts : List IRInst
deriving DecidableEq, Repr

/-- One record of the flattened serialized instruction list
(`IRSerialData`): op-code, operand indices and the stored location value
(0 = none). -/
structure IRSerialInst where
  op : Nat
  operands : List Nat
  loc : Nat
deriving DecidableEq, Repr

/-- Modelled from the spec: the intermediate flattened serialized form of an
IR module (`IRSerialData`); compared wholesale by the verifier. -/
structure IRSerialData where
  insts : List IRSerialInst
deriving DecidableEq, Repr

/-- Modelled from the spec: the state of a `SerialSourceLocWriter` — the
source manager it was constructed with and the raw locations recorded so far
(null locations are never recorded). -/
structure SourceLocWriterState where
  sourceManager : List (Nat × HumaneLoc)
  recorded : List Nat
deriving DecidableEq, Repr

/-- Record a batch of raw locations into an optional source-location writer
(no-op when no writer was created; the null location 0 is not recorded). -/
def recordLocs (slw : Option SourceLocWriterState) (locs : List Nat) :
    Option SourceLocWriterState :=
  slw.map fun st => { st with recorded := st.recorded ++ locs.filter (· ≠ 0) }

/-- The serialized AST module payload.  Modelled from the spec: the object
graph codec is outside the sources under verification; the payload is
identified by what it decodes back to — the module declaration root plus the
source locations its serialization records into an attached location
writer. -/
structure ModuleDeclModel where
  payloadId : Nat
  locs : List Nat
deriving DecidableEq, Repr

/-- An AST node reference as stored in `SerialContainerData::Module`
(`NodeBase`): either a module declaration or some other node (the
`as<ModuleDecl>` cast in `write` succeeds only on the former). -/
inductive ASTNodeModel where
  | moduleDecl (d : ModuleDeclModel)
  | other (id : Nat)
deriving DecidableEq, Repr

/-- The `as<ModuleDecl>` downcast used by `SerialContainerUtil::write`. -/
def asModuleDecl : Option ASTNodeModel → Option ModuleDeclModel
  | some (.moduleDecl d) => some d
  | _ => none

/-- Target settings copied by `requestToData` into a
`SerialContainerData::TargetComponent`. -/
structure TargetSettings where
  floatingPointMode : Nat
  profile : Nat
  flags : Nat
  codeGenTarget : Nat
deriving DecidableEq, Repr

/-- `SerialContainerData::TargetComponent`: per-target IR module plus the
target settings. -/
structure TargetComponent where
  irModule : IRModuleModel
  target : TargetSettings
deriving DecidableEq, Repr

/-- `SerialContainerData::EntryPoint`: name, mangled name and profile bits. -/
structure EntryPoint where
  name : String
  mangledName : String
  profile : Nat
deriving DecidableEq, Repr

/-- `SerialContainerData::Module`: an optional AST builder (set only on the
read path, when AST data was decoded), an optional AST root node and an
optional IR module. -/
structure ContainerModule where
  astBuilder : Bool
  astRootNode : Option ASTNodeModel
  irModule : Option IRModuleModel
deriving DecidableEq, Repr

/-- `SerialContainerData`: the in-memory session snapshot. -/
structure SerialContainerData where
  modules : List ContainerModule
  targetComponents : List TargetComponent
  entryPoints : List EntryPoint
deriving DecidableEq, Repr

/-- `SerialContainerData::clear` result: the empty snapshot. -/
def SerialContainerData.empty : SerialContainerData := ⟨[], [], []⟩

/-- Modelled from the spec: `StringSlicePool` — insertion-ordered,
deduplicating string pool; a handle is the index of the string among the
added slices. -/
structure StringSlicePool where
  added : List String
deriving DecidableEq, Repr

/-- Index of the first occurrence of a string in a list, if present. -/
def poolIndex (s : String) : List String → Option Nat
  | [] => none
  | t :: rest =>
    if t = s then some 0 else (poolIndex s rest).map (· + 1)

/-- Modelled from the spec: `StringSlicePool::add` — returns the existing
handle for duplicate content, else appends and returns the fresh handle. -/
def StringSlicePool.add (p : StringSlicePool) (s : String) :
    Nat × StringSlicePool :=
  match poolIndex s p.added with
  | some i => (i, p)
  | none => (p.added.length, ⟨p.added ++ [s]⟩)

/-- Modelled from the spec: `StringSlicePool::getSlice` on a handle. -/
def StringSlicePool.getSlice (p : StringSlicePool) (h : Nat) : String :=
  p.added.getD h ""

/-- The chunk tags (FourCC codes) the orchestrator uses:
`SLANG`-container, container header, module list, IR module, serialized IR
data, AST module, AST module data, entry point, debug info, debug data,
string table. -/
inductive FourCC where
  | container
  | header
  | moduleList
  | irModule
  | irData
  | astModule
  | astData
  | entryPoint
  | debug
  | debugData
  | stringTable
deriving DecidableEq, Repr

/-- `SerialContainerBinary::EntryPoint`: the fixed-size entry-point record
written into a Data chunk — string-table handle of the name, raw profile
bits, string-table handle of the mangled name. -/
structure EntryPointRecord where
  name : Nat
  profile : Nat
  mangledName : Nat
deriving DecidableEq, Repr

/-- A Data chunk's payload.  The orchestrator never inspects payload bytes
itself; each variant stands for the byte encoding produced/consumed by the
corresponding sub-codec.  For the sub-codecs outside the sources under
verification (IR data, AST data, debug data) a `none` content models a
malformed byte payload, on which the codec's read fails. -/
inductive Payload where
  | header (compressionType : Nat)
  | entryPoint (ep : EntryPointRecord)
  | stringTable (strings : List String)
  | irData (d : Option IRSerialData)
  | astData (d : Option ModuleDeclModel)
  | debugData (d : Option (List (Nat × Option HumaneLoc)))
deriving DecidableEq, Repr

/-- A RIFF chunk: a tagged List chunk with ordered children, or a tagged
Data chunk with a byte payload. -/
inductive Chunk where
  | list (tag : FourCC) (children : List Chunk)
  | data (tag : FourCC) (payload : Payload)
deriving Repr

/-- `findContainedData` over a scope's direct children: payload of the first
Data chunk with the given tag. -/
def findContainedData (tag : FourCC) : List Chunk → Option Payload
  | [] => none
  | (Chunk.data t p) :: rest =>
    if t = tag then some p else findContainedData tag rest
  | (Chunk.list _ _) :: rest => findContainedData tag rest

/-- `findContainedList` over a scope's direct children: children of the first
List chunk with the given tag. -/
def findContainedList (tag : FourCC) : List Chunk → Option (List Chunk)
  | [] => none
  | (Chunk.list t cs) :: rest =>
    if t = tag then some cs else findContainedList tag rest
  | (Chunk.data _ _) :: rest => findContainedList tag rest

/-- `findContained` collecting all Data chunks with a tag among a scope's
direct children, in order. -/
def findAllData (tag : FourCC) : List Chunk → List Payload
  | [] => []
  | (Chunk.data t p) :: rest =>
    if t = tag then p :: findAllData tag rest else findAllData tag rest
  | (Chunk.list _ _) :: rest => findAllData tag rest

mutual

/-- `RiffContainer::ListChunk::findListRec`: recursive search for a List
chunk with the given tag, checking the chunk itself first, then its
descendants in preorder; returns the found chunk's children. -/
def findListRec (tag : FourCC) : Chunk → Option (List Chunk)
  | .data _ _ => none
  | .list t cs =>
    if t = tag then some cs else findListRecMany tag cs

/-- `findListRec` over a list of sibling chunks, first hit wins. -/
def findListRecMany (tag : FourCC) : List Chunk → Option (List Chunk)
  | [] => none
  | c :: rest =>
    match findListRec tag c with
    | some r => some r
    | none => findListRecMany tag rest

end

mutual

/-- Decidable equality for chunks (component-wise). -/
def chunkDecEq : (c d : Chunk) → Decidable (c = d)
  | .list t cs, .list u ds =>
    match decEq t u, chunkListDecEq cs ds with
    | .isTrue ht, .isTrue hc => .isTrue (by rw [ht, hc])
    | .isFalse ht, _ => .isFalse (by intro h; injection h; contradiction)
    | _, .isFalse hc => .isFalse (by intro h; injection h; contradiction)
  | .data t p, .data u q =>
    match decEq t u, decEq p q with
    | .isTrue ht, .isTrue hp => .isTrue (by rw [ht, hp])
    | .isFalse ht, _ => .isFalse (by intro h; injection h; contradiction)
    | _, .isFalse hp => .isFalse (by intro h; injection h; contradiction)
  | .list _ _, .data _ _ => .isFalse (by intro h; exact Chunk.noConfusion h)
  | .data _ _, .list _ _ => .isFalse (by intro h; exact Chunk.noConfusion h)

/-- Decidable equality for chunk lists (element-wise). -/
def chunkListDecEq : (cs ds : List Chunk) → Decidable (cs = ds)
  | [], [] => .isTrue rfl
  | c :: cs, d :: ds =>
    match chunkDecEq c d, chunkListDecEq cs ds with
    | .isTrue h1, .isTrue h2 => .isTrue (by rw [h1, h2])
    | .isFalse h1, _ => .isFalse (by intro h; injection h; contradiction)
    | _, .isFalse h2 => .isFalse (by intro h; injection h; contradiction)
  | [], _ :: _ => .isFalse (by intro h; exact List.noConfusion h)
  | _ :: _, [] => .isFalse (by intro h; exact List.noConfusion h)

end

instance : DecidableEq Chunk := chunkDecEq

/-! ## Write options and the IR / AST / debug sub-codecs (spec-modelled) -/

/-- `SerialContainerUtil::WriteOptions`: the serialization flags
(`SerialOptionFlag::IRModule`, `ASTModule`, `DebugInfo`,
`RawSourceLocation`), the container compression scheme and the source
manager used to resolve locations while writing. -/
structure WriteOptions where
  irModuleFlag : Bool
  astModuleFlag : Bool
  debugInfoFlag : Bool
  rawSourceLocationFlag : Bool
  compressionType : Nat
  sourceManager : List (Nat × HumaneLoc)
deriving DecidableEq, Repr

/-- Modelled from the spec: the flattened instruction records
`IRSerialWriter::write` produces for one IR module.  A location is stored
when raw fidelity was requested or a source-location writer is attached;
otherwise the stored location is null (0). -/
def irStoreData (opts : WriteOptions) (slwPresent : Bool) (m : IRModuleModel) :
    IRSerialData :=
  ⟨m.insts.map fun i =>
    ⟨i.op, i.operands,
      if opts.rawSourceLocationFlag || slwPresent then i.sourceLoc else 0⟩⟩

/-- Modelled from the spec: `IRSerialWriter::write` — flattens the module
into `IRSerialData` and records every non-null instruction location into the
attached source-location writer, if one is present. -/
def irWriteSerial (m : IRModuleModel) (opts : WriteOptions)
    (slw : Option SourceLocWriterState) :
    IRSerialData × Option SourceLocWriterState :=
  (irStoreData opts slw.isSome m, recordLocs slw (m.insts.map (·.sourceLoc)))

/-- Modelled from the spec: `IRSerialReader::read` — replays the flattened
instruction list, materializing one instruction per record with the stored
operands and location. -/
def irReadSerial (d : IRSerialData) : IRModuleModel :=
  ⟨d.insts.map fun r => ⟨r.op, r.operands, r.loc⟩⟩

/-- Modelled from the spec: `IRSerialWriter::writeContainer` — frames the
serialized IR data as a List chunk tagged as an IR module. -/
def irWriteContainer (d : IRSerialData) : Chunk :=
  .list .irModule [.data .irData (.irData (some d))]

/-- Modelled from the spec: `IRSerialReader::readContainer` — recovers the
serialized IR data from an IR-module List chunk's children; fails on a
missing or malformed payload. -/
def irReadContainer (children : List Chunk) : Option IRSerialData :=
  match findContainedData .irData children with
  | some (.irData (some d)) => some d
  | _ => none

/-- Modelled from the spec: `SerialWriter::writeIntoContainer` — frames a
serialized AST module as a List chunk holding one Data chunk of AST data. -/
def astWriteContainer (d : ModuleDeclModel) : Chunk :=
  .list .astModule [.data .astData (.astData (some d))]

/-- The debug-info table a `SerialSourceLocWriter` writes out: one entry per
recorded raw location together with the humane location it resolves to in
the writer's source manager (so a reader can rebuild an equivalent view). -/
def debugEntries (st : SourceLocWriterState) : List (Nat × Option HumaneLoc) :=
  st.recorded.map fun r => (r, resolveLoc st.sourceManager r)

/-- Modelled from the spec: `SerialSourceLocData::writeContainer` — frames
the debug-info table as a List chunk holding one Data chunk. -/
def debugWriteContainer (st : SourceLocWriterState) : Chunk :=
  .list .debug [.data .debugData (.debugData (some (debugEntries st)))]

/-! ## `SerialContainerUtil::write` -/

/-- The per-module body of `write`'s module loop: the IR payload if the IR
flag is set and the module has IR (recording locations into the attached
writer), then the AST payload if the AST flag is set and the root node casts
to a module declaration (its serialization records locations through the
writer attached as an extra object). -/
def writeModuleChunks (opts : WriteOptions) :
    List ContainerModule → Option SourceLocWriterState →
    List Chunk × Option SourceLocWriterState
  | [], slw => ([], slw)
  | m :: rest, slw =>
    let irStep :=
      if opts.irModuleFlag then
        match m.irModule with
        | some irm =>
          let w := irWriteSerial irm opts slw
          ([irWriteContainer w.1], w.2)
        | none => ([], slw)
      else ([], slw)
    let astStep :=
      if opts.astModuleFlag then
        match asModuleDecl m.astRootNode with
        | some decl =>
          ([astWriteContainer decl], recordLocs irStep.2 decl.locs)
        | none => ([], irStep.2)
      else ([], irStep.2)
    let restStep := writeModuleChunks opts rest astStep.2
    (irStep.1 ++ astStep.1 ++ restStep.1, restStep.2)

/-- The per-target body of `write`'s target loop: each target component's IR
module is serialized unconditionally. -/
def writeTargetChunks (opts : WriteOptions) :
    List TargetComponent → Option SourceLocWriterState →
    List Chunk × Option SourceLocWriterState
  | [], slw => ([], slw)
  | tc :: rest, slw =>
    let w := irWriteSerial tc.irModule opts slw
    let restStep := writeTargetChunks opts rest w.2
    (irWriteContainer w.1 :: restStep.1, restStep.2)

/-- The entry-point loop of `write`: one Data chunk per entry point holding
the string-pool handle of the name, the raw profile bits and the handle of
the mangled name, threading the container string pool. -/
def writeEntryPointChunks :
    List EntryPoint → StringSlicePool → List Chunk × StringSlicePool
  | [], pool => ([], pool)
  | e :: rest, pool =>
    let a1 := pool.add e.name
    let a2 := a1.2.add e.mangledName
    let restStep := writeEntryPointChunks rest a2.2
    (Chunk.data .entryPoint (.entryPoint ⟨a1.1, e.profile, a2.1⟩)
        :: restStep.1,
      restStep.2)

/-- `SerialContainerUtil::write`, translated statement by statement: open the
container List chunk, write the header Data chunk (compression scheme); if
there are modules and IR or AST output is requested, open the module-list
List chunk, create the source-location writer when debug info is requested,
write the per-module payloads and then — still inside the module-list scope,
whose RAII guard closes only at the end of that block — the per-target IR
payloads when targets exist and IR output is requested; then one Data chunk
per entry point; then the debug-info chunk whenever a source-location writer
was created; then the string-table chunk when the container string pool is
non-empty. -/
def write (data : SerialContainerData) (opts : WriteOptions) : Chunk :=
  let headerChunk := Chunk.data .header (.header opts.compressionType)
  let moduleListState :=
    if (!data.modules.isEmpty) && (opts.irModuleFlag || opts.astModuleFlag) then
      let slw0 : Option SourceLocWriterState :=
        if opts.debugInfoFlag then some ⟨opts.sourceManager, []⟩ else none
      let mStep := writeModuleChunks opts data.modules slw0
      let tStep :=
        if (!data.targetComponents.isEmpty) && opts.irModuleFlag then
          writeTargetChunks opts data.targetComponents mStep.2
        else ([], mStep.2)
      ([Chunk.list .moduleList (mStep.1 ++ tStep.1)], tStep.2)
    else ([], none)
  let epState := writeEntryPointChunks data.entryPoints ⟨[]⟩
  let debugPart :=
    match moduleListState.2 with
    | some st => [debugWriteContainer st]
    | none => []
  let stringPart :=
    if epState.2.added.isEmpty then []
    else [Chunk.data .stringTable (.stringTable epState.2.added)]
  Chunk.list .container
    (headerChunk :: (moduleListState.1 ++ epState.1 ++ debugPart ++ stringPart))

/-! ## Compositional descriptions of `write`'s output sections -/

/-- The guard of `write`'s module-list block: modules exist and IR or AST
output is requested. -/
def moduleListCond (data : SerialContainerData) (opts : WriteOptions) : Bool :=
  (!data.modules.isEmpty) && (opts.irModuleFlag || opts.astModuleFlag)

/-- The guard of `write`'s target block: targets exist and IR output is
requested (evaluated only inside the module-list block). -/
def targetCond (data : SerialContainerData) (opts : WriteOptions) : Bool :=
  (!data.targetComponents.isEmpty) && opts.irModuleFlag

/-- The chunks `write` emits for one module, as a function of the flags and
of whether a source-location writer is attached. -/
def moduleChunksFor (opts : WriteOptions) (slwPresent : Bool)
    (m : ContainerModule) : List Chunk :=
  (if opts.irModuleFlag then
    match m.irModule with
    | some irm => [irWriteContainer (irStoreData opts slwPresent irm)]
    | none => []
  else []) ++
  (if opts.astModuleFlag then
    match asModuleDecl m.astRootNode with
    | some decl => [astWriteContainer decl]
    | none => []
  else [])

/-- The raw locations one module's serialization records into the
source-location writer. -/
def moduleRecLocs (opts : WriteOptions) (m : ContainerModule) : List Nat :=
  (if opts.irModuleFlag then
    match m.irModule with
    | some irm => (irm.insts.map IRInst.sourceLoc).filter (· ≠ 0)
    | none => []
  else []) ++
  (if opts.astModuleFlag then
    match asModuleDecl m.astRootNode with
    | some decl => decl.locs.filter (· ≠ 0)
    | none => []
  else [])

/-- The chunk `write` emits for one target component. -/
def targetChunkFor (opts : WriteOptions) (slwPresent : Bool)
    (tc : TargetComponent) : Chunk :=
  irWriteContainer (irStoreData opts slwPresent tc.irModule)

/-- The raw locations one target component's serialization records. -/
def targetRecLocs (tc : TargetComponent) : List Nat :=
  (tc.irModule.insts.map IRInst.sourceLoc).filter (· ≠ 0)

/-- All raw locations recorded during one `write` pass, in recording
order. -/
def writeRecorded (data : SerialContainerData) (opts : WriteOptions) :
    List Nat :=
  data.modules.flatMap (moduleRecLocs opts) ++
    (if targetCond data opts then
      data.targetComponents.flatMap targetRecLocs
    else [])

/-- The module-list section of the container: one module-list chunk holding
the per-module payloads followed by the per-target payloads, emitted only
under `moduleListCond`. -/
def moduleListSection (data : SerialContainerData) (opts : WriteOptions) :
    List Chunk :=
  if moduleListCond data opts then
    [Chunk.list .moduleList
      (data.modules.flatMap (moduleChunksFor opts opts.debugInfoFlag) ++
        (if targetCond data opts then
          data.targetComponents.map (targetChunkFor opts opts.debugInfoFlag)
        else []))]
  else []

/-- The entry-point section of the container. -/
def entryPointSection (data : SerialContainerData) : List Chunk :=
  (writeEntryPointChunks data.entryPoints ⟨[]⟩).1

/-- The container string pool after the entry-point loop. -/
def writePool (data : SerialContainerData) : StringSlicePool :=
  (writeEntryPointChunks data.entryPoints ⟨[]⟩).2

/-- The debug-info section: present exactly when a source-location writer
was created, i.e. when the module-list block ran with debug info
requested — whether or not any location was recorded. -/
def debugSection (data : SerialContainerData) (opts : WriteOptions) :
    List Chunk :=
  if moduleListCond data opts && opts.debugInfoFlag then
    [debugWriteContainer ⟨opts.sourceManager, writeRecorded data opts⟩]
  else []

/-- The string-table section: present exactly when the container string pool
is non-empty after the entry-point loop. -/
def stringTableSection (data : SerialContainerData) : List Chunk :=
  if (writePool data).added.isEmpty then []
  else [Chunk.data .stringTable (.stringTable (writePool data).added)]

/-- Whether a container chunk's direct children include a debug-info List
chunk. -/
def debugChunkPresent (c : Chunk) : Bool :=
  match c with
  | .list _ cs =>
    cs.any fun ch =>
      match ch with
      | .list .debug _ => true
      | _ => false
  | .data _ _ => false

/-- Whether a container chunk's direct children include a string-table Data
chunk. -/
def stringTablePresent (c : Chunk) : Bool :=
  match c with
  | .list _ cs =>
    cs.any fun ch =>
      match ch with
      | .data .stringTable _ => true
      | _ => false
  | .data _ _ => false

/-! ## `SerialContainerUtil::read` -/

/-- Locating and decoding the container header among the container chunk's
children (`findContainedData<ContainerHeader>`). -/
def readHeaderOf (children : List Chunk) : Option Nat :=
  match findContainedData .header children with
  | some (.header ct) => some ct
  | _ => none

/-- Decoding the container string table: an absent chunk means an empty
pool. -/
def readStringPool (children : List Chunk) : StringSlicePool :=
  match findContainedData .stringTable children with
  | some (.stringTable ss) => ⟨ss⟩
  | _ => ⟨[]⟩

/-- Decoding the debug-info chunk into a source-location reader: `some r`
on success (`r = none` when the chunk is absent, which is not an error);
`none` when the chunk is present but malformed
(`SerialSourceLocData::readContainer` / `SerialSourceLocReader::read`
failure). -/
def readDebugInfo (children : List Chunk) :
    Option (Option (List (Nat × Option HumaneLoc))) :=
  match findContainedList .debug children with
  | none => some none
  | some dchildren =>
    match findContainedData .debugData dchildren with
    | some (.debugData (some entries)) => some (some entries)
    | _ => none

/-- Decoding one AST-module chunk in `read`'s module loop: when the AST data
chunk is present, an AST builder is created and the data loaded (failure on
malformed data); when absent, no builder is created and no error raised. -/
def readASTChunk (children : List Chunk) : Option (Bool × Option ASTNodeModel) :=
  match findContainedData .astData children with
  | some (.astData (some decl)) => some (true, some (.moduleDecl decl))
  | none => some (false, none)
  | some _ => none

/-- What one module slot of `read`'s loop decoded: the AST builder flag, the
AST root node and the IR module. -/
structure SlotOutcome where
  astBuilder : Bool
  astRootNode : Option ASTNodeModel
  irModule : Option IRModuleModel
deriving DecidableEq, Repr

/-- Whether the slot contributes a module to the output
(`astBuilder || irModule`). -/
def SlotOutcome.emits (o : SlotOutcome) : Bool :=
  o.astBuilder || o.irModule.isSome

/-- The module a contributing slot adds to the output snapshot. -/
def SlotOutcome.toModule (o : SlotOutcome) : ContainerModule :=
  ⟨o.astBuilder, o.astRootNode, o.irModule⟩

/-- One iteration of `read`'s module loop: optionally decode an IR-module
chunk (advancing), then optionally decode an AST-module chunk (advancing),
and if neither branch advanced, step past the unrecognized chunk; `none`
models the `SLANG_RETURN_ON_FAIL` exits on a malformed payload. -/
def readSlotStep : List Chunk → Option (SlotOutcome × List Chunk)
  | [] => some (⟨false, none, none⟩, [])
  | (Chunk.list .irModule irChildren) :: rest =>
    match irReadContainer irChildren with
    | none => none
    | some d =>
      match rest with
      | (Chunk.list .astModule astChildren) :: rest2 =>
        match readASTChunk astChildren with
        | none => none
        | some (astB, root) => some (⟨astB, root, some (irReadSerial d)⟩, rest2)
      | _ => some (⟨false, none, some (irReadSerial d)⟩, rest)
  | (Chunk.list .astModule astChildren) :: rest =>
    match readASTChunk astChildren with
    | none => none
    | some (astB, root) => some (⟨astB, root, none⟩, rest)
  | _ :: rest => some (⟨false, none, none⟩, rest)

/-- Whether a chunk is an IR-module List chunk. -/
def isIRChunk : Chunk → Bool
  | .list .irModule _ => true
  | _ => false

/-- Whether a chunk is an AST-module List chunk. -/
def isASTChunk : Chunk → Bool
  | .list .astModule _ => true
  | _ => false

/-- `read`'s module loop, fuelled by the number of remaining chunks (each
iteration consumes at least one chunk, so the fuel never runs out); returns
the success flag and the modules decoded so far — on failure, the modules
decoded before the failure point are kept, as they are in the `out`
parameter of the source. -/
def readModuleLoopAux : Nat → List Chunk → Bool × List ContainerModule
  | _, [] => (true, [])
  | 0, _ :: _ => (true, [])
  | Nat.succ fuel, c :: rest =>
    match readSlotStep (c :: rest) with
    | none => (false, [])
    | some (o, rest2) =>
      let t := readModuleLoopAux fuel rest2
      (t.1, (if o.emits then [o.toModule] else []) ++ t.2)

/-- `read`'s module loop over the module-list chunk's children. -/
def readModuleLoop (chunks : List Chunk) : Bool × List ContainerModule :=
  readModuleLoopAux chunks.length chunks

/-- `read`'s entry-point loop over the collected entry-point Data chunks:
each record's string handles are resolved against the container string pool;
a malformed record fails the read (keeping earlier entry points in the
output). -/
def readEntryPoints (pool : StringSlicePool) :
    List Payload → Bool × List EntryPoint
  | [] => (true, [])
  | (Payload.entryPoint r) :: rest =>
    let t := readEntryPoints pool rest
    (t.1, ⟨pool.getSlice r.name, pool.getSlice r.mangledName, r.profile⟩ :: t.2)
  | _ :: _ => (false, [])

/-- `SerialContainerUtil::read`, translated statement by statement: clear
the output, locate the container chunk anywhere in the tree (fail if
absent), find the header (fail if absent), decode the string table if
present (empty pool otherwise), decode debug info if present (failure on a
malformed chunk; absence is fine), walk the module-list chunk's children
decoding module slots, then decode the entry-point records.  The Boolean is
the result code; the snapshot is the state of the `out` parameter when the
function returns. -/
def read (root : Chunk) : Bool × SerialContainerData :=
  match findListRec .container root with
  | none => (false, SerialContainerData.empty)
  | some children =>
    match readHeaderOf children with
    | none => (false, SerialContainerData.empty)
    | some _ =>
      let pool := readStringPool children
      match readDebugInfo children with
      | none => (false, SerialContainerData.empty)
      | some _locReader =>
        let mres :=
          match findContainedList .moduleList children with
          | none => (true, [])
          | some mchunks => readModuleLoop mchunks
        if mres.1 then
          let eres := readEntryPoints pool (findAllData .entryPoint children)
          (eres.1, ⟨mres.2, [], eres.2⟩)
        else
          (false, ⟨mres.2, [], []⟩)

/-! ## Round-trip descriptions used by the order-preservation theorem -/

/-- What an IR module comes back as after one write/read round trip:
op-codes and operands unchanged; locations survive exactly when raw
fidelity or debug info was requested, and are nulled otherwise. -/
def irRoundTrip (opts : WriteOptions) (m : IRModuleModel) : IRModuleModel :=
  irReadSerial (irStoreData opts opts.debugInfoFlag m)

/-- What a fully populated module comes back as after a round trip. -/
def rtModule (opts : WriteOptions) (m : ContainerModule) : ContainerModule :=
  ⟨true, m.astRootNode, m.irModule.map (irRoundTrip opts)⟩

/-- What the target components come back as after a round trip: not as
target components, but as additional modules holding only IR, appended
after the translation-unit modules. -/
def rtTargets (data : SerialContainerData) (opts : WriteOptions) :
    List ContainerModule :=
  if moduleListCond data opts && targetCond data opts then
    data.targetComponents.map fun tc =>
      ⟨false, none, some (irRoundTrip opts tc.irModule)⟩
  else []

/-! ## `SerialContainerUtil::requestToData` -/

/-- A translation unit of the front-end request: its module's IR and its
module declaration (`TranslationUnitRequest::getModuleDecl` is typed, so the
root extracted here is always a module declaration when present). -/
structure TranslationUnitModel where
  moduleIR : Option IRModuleModel
  moduleDecl : Option ModuleDeclModel
deriving DecidableEq, Repr

/-- One linkage target together with its target program's lazily created
IR-module-for-layout: the cache as it currently stands, and the module that
would be created on demand. -/
structure TargetModel where
  floatingPointMode : Nat
  targetProfile : Nat
  targetFlags : Nat
  target : Nat
  layoutIRModule : Option IRModuleModel
  freshLayoutIR : IRModuleModel
deriving DecidableEq, Repr

/-- One entry point of the specialized program: name, mangled name,
profile. -/
structure EntryPointModel where
  name : String
  mangledName : String
  profile : Nat
deriving DecidableEq, Repr

/-- The live compilation state `requestToData` extracts from: the front-end
request's translation units, the linkage's targets, and the specialized
program's entry points. -/
structure CompileRequestModel where
  translationUnits : List TranslationUnitModel
  targets : List TargetModel
  entryPoints : List EntryPointModel
deriving DecidableEq, Repr

/-- Modelled from the spec: `TargetProgram::getOrCreateIRModuleForLayout` —
returns the cached IR-module-for-layout, creating and caching it first when
it does not exist yet (the source names it get-or-create; the spec's
collaborator section otherwise leaves it undescribed). -/
def getOrCreateIRModuleForLayout (t : TargetModel) :
    IRModuleModel × TargetModel :=
  match t.layoutIRModule with
  | some m => (m, t)
  | none =>
    (t.freshLayoutIR, { t with layoutIRModule := some t.freshLayoutIR })

/-- The module `requestToData` stages for one translation unit. -/
def tuToModule (tu : TranslationUnitModel) : ContainerModule :=
  ⟨false, tu.moduleDecl.map ASTNodeModel.moduleDecl, tu.moduleIR⟩

/-- The target loop of `requestToData`: per target, fetch (or create) the
IR-module-for-layout and copy the target settings, threading the possibly
updated target state. -/
def extractTargets :
    List TargetModel → List TargetComponent × List TargetModel
  | [] => ([], [])
  | t :: rest =>
    let got := getOrCreateIRModuleForLayout t
    let tc : TargetComponent :=
      ⟨got.1, ⟨t.floatingPointMode, t.targetProfile, t.targetFlags, t.target⟩⟩
    let restR := extractTargets rest
    (tc :: restR.1, got.2 :: restR.2)

/-- The entry point `requestToData` stages for one program entry point. -/
def epToEntryPoint (e : EntryPointModel) : EntryPoint :=
  ⟨e.name, e.mangledName, e.profile⟩

/-- `SerialContainerUtil::requestToData`: clear the output, stage one module
per translation unit (AST root and IR), one target component per linkage
target (via `getOrCreateIRModuleForLayout`), and one entry point per program
entry point, all in order.  The second component is the compilation state
after the call (state passing makes the call's effect on the session
explicit). -/
def requestToData (req : CompileRequestModel) :
    SerialContainerData × CompileRequestModel :=
  let mods := req.translationUnits.map tuToModule
  let tres := extractTargets req.targets
  let eps := req.entryPoints.map epToEntryPoint
  (⟨mods, tres.1, eps⟩, { req with targets := tres.2 })

/-- The target component `requestToData` stages for one target. -/
def targetToComponent (t : TargetModel) : TargetComponent :=
  ⟨t.layoutIRModule.getD t.freshLayoutIR,
    ⟨t.floatingPointMode, t.targetProfile, t.targetFlags, t.target⟩⟩

/-- A target's state after `requestToData`: the layout cache is populated. -/
def afterLayout (t : TargetModel) : TargetModel :=
  { t with layoutIRModule := some (t.layoutIRModule.getD t.freshLayoutIR) }

/-! ## `SerialContainerUtil::verifyIRSerialize` -/

/-- The source-location writer `verifyIRSerialize` creates when debug info
is requested. -/
def verifySlw (opts : WriteOptions) : Option SourceLocWriterState :=
  if opts.debugInfoFlag then some ⟨opts.sourceManager, []⟩ else none

/-- The flattened instruction payload `verifyIRSerialize` writes
(`irData`). -/
def verifyWrittenData (m : IRModuleModel) (opts : WriteOptions) :
    IRSerialData :=
  (irWriteSerial m opts (verifySlw opts)).1

/-- The source-location writer state after the verifier wrote the module. -/
def verifySlwFinal (m : IRModuleModel) (opts : WriteOptions) :
    Option SourceLocWriterState :=
  (irWriteSerial m opts (verifySlw opts)).2

/-- The container the verifier assembles: the IR-module chunk, then the
debug-info chunk when a source-location writer exists. -/
def verifyContainer (m : IRModuleModel) (opts : WriteOptions) : Chunk :=
  Chunk.list .container
    (irWriteContainer (verifyWrittenData m opts) ::
      (match verifySlwFinal m opts with
      | some st => [debugWriteContainer st]
      | none => []))

/-- Modelled from the spec: `RiffUtil::write` to a memory stream followed by
`RiffUtil::read` — the framing layer is lossless, reconstructing the exact
chunk tree that was written. -/
def riffStreamRoundTrip (c : Chunk) : Chunk := c

/-- The instruction payload the verifier reads back from the streamed
container (`irReadData`), when the IR-module chunk is found and decodes. -/
def verifyRereadData (m : IRModuleModel) (opts : WriteOptions) :
    Option IRSerialData :=
  match riffStreamRoundTrip (verifyContainer m opts) with
  | .list _ cs =>
    match findContainedList .irModule cs with
    | some ircs => irReadContainer ircs
    | none => none
  | .data _ _ => none

/-- The module the verifier reconstructs (`irReadModule`); as in the
source, the reconstruction replays `irData`. -/
def verifyReadModule (m : IRModuleModel) (opts : WriteOptions) :
    IRModuleModel :=
  irReadSerial (verifyWrittenData m opts)

/-- The debug-info table the verifier's fresh location reader holds (backing
the fresh, independent `workSourceManager`). -/
def verifyWorkEntries (m : IRModuleModel) (opts : WriteOptions) :
    Option (List (Nat × Option HumaneLoc)) :=
  (verifySlwFinal m opts).map debugEntries

/-- Modelled from the spec: resolving a reconstructed location against the
work source manager rebuilt from the debug-info table. -/
def resolveRead (entries : Option (List (Nat × Option HumaneLoc)))
    (r : Nat) : Option HumaneLoc :=
  if r = 0 then none
  else
    match entries with
    | none => none
    | some es =>
      match assocFind r es with
      | some h => h
      | none => none

/-- The verifier's raw-fidelity check: instructions from index 1 on must
carry identical raw source locations (index 0, the module instruction, is
only covered by a debug assert in the source, not by a failure path). -/
def rawLocsMatch (orig reread : List IRInst) : Bool :=
  ((orig.zip reread).drop 1).all fun p => p.1.sourceLoc == p.2.sourceLoc

/-- The verifier's debug-fidelity check, from index 1: identical raw
locations pass immediately; otherwise both sides are resolved (original
manager vs. the work manager) and must agree — both unresolved, or equal
line, column and found path. -/
def debugLocsMatch (origMgr : List (Nat × HumaneLoc))
    (entries : Option (List (Nat × Option HumaneLoc)))
    (orig reread : List IRInst) : Bool :=
  ((orig.zip reread).drop 1).all fun p =>
    if p.1.sourceLoc == p.2.sourceLoc then true
    else
      match resolveLoc origMgr p.1.sourceLoc,
          resolveRead entries p.2.sourceLoc with
      | none, none => true
      | some oh, some rh => oh == rh
      | _, _ => false

/-- `SerialContainerUtil::verifyIRSerialize`, translated statement by
statement over the spec-modelled codecs: flatten the module, write the IR
chunk and (when debug info is requested) the debug chunk into a container,
stream it out and back; find and decode the debug chunk (fail if debug info
was requested but it is absent or malformed); find and decode the IR chunk
(fail if absent or malformed); fail unless the re-read payload equals the
written payload; reconstruct the module (from `irData`, as the source
does); fail unless the instruction counts match; then check raw location
fidelity when requested, else debug location fidelity when requested. -/
def verifyIRSerialize (m : IRModuleModel) (opts : WriteOptions) : Bool :=
  let originalInsts := m.insts
  let irData := verifyWrittenData m opts
  let root := riffStreamRoundTrip (verifyContainer m opts)
  let rootChildren : List Chunk :=
    match root with
    | .list _ cs => cs
    | .data _ _ => []
  let debugRes : Option (Option (List (Nat × Option HumaneLoc))) :=
    if opts.debugInfoFlag then
      match findContainedList .debug rootChildren with
      | none => none
      | some dcs =>
        match findContainedData .debugData dcs with
        | some (.debugData (some entries)) => some (some entries)
        | _ => none
    else some none
  match debugRes with
  | none => false
  | some locEntries =>
    match findContainedList .irModule rootChildren with
    | none => false
    | some ircs =>
      match irReadContainer ircs with
      | none => false
      | some irReadData =>
        if irData ≠ irReadData then false
        else
          let readInsts := (irReadSerial irData).insts
          if readInsts.length ≠ originalInsts.length then false
          else if opts.rawSourceLocationFlag then
            rawLocsMatch originalInsts readInsts
          else if opts.debugInfoFlag then
            debugLocsMatch opts.sourceManager locEntries
              originalInsts readInsts
          else true

/-! ## Concrete instances used by counterexamples and witnesses -/

/-- A small source manager: two resolvable raw locations. -/
def sampleMgr : List (Nat × HumaneLoc) :=
  [(5, ⟨1, 2, "a.slang"⟩), (7, ⟨3, 4, "a.slang"⟩)]

/-- A small IR module with located and unlocated instructions. -/
def c1Module : IRModuleModel :=
  ⟨[⟨1, [], 5⟩, ⟨2, [0], 7⟩, ⟨3, [1], 0⟩]⟩

/-- Options requesting IR, AST and debug info (no raw fidelity). -/
def c1Opts : WriteOptions := ⟨true, true, true, false, 0, sampleMgr⟩

/-- A snapshot with one payload-less module and one target component. -/
def c2Data : SerialContainerData :=
  ⟨[⟨false, none, none⟩], [⟨⟨[⟨9, [], 0⟩]⟩, ⟨1, 2, 3, 4⟩⟩], []⟩

/-- Options requesting IR output only. -/
def c2Opts : WriteOptions := ⟨true, false, false, false, 0, []⟩

/-- A snapshot with one fully populated module, one target component and
one entry point. -/
def c3Data : SerialContainerData :=
  ⟨[⟨false, some (.moduleDecl ⟨7, []⟩), some ⟨[⟨1, [], 0⟩]⟩⟩],
    [⟨⟨[]⟩, ⟨0, 0, 0, 0⟩⟩],
    [⟨"main", "_m", 9⟩]⟩

/-- Options requesting IR and AST output. -/
def c3Opts : WriteOptions := ⟨true, true, false, false, 0, []⟩

/-- A compile request with one translation unit, one target (layout module
already cached) and one entry point. -/
def c3Req : CompileRequestModel :=
  ⟨[⟨some ⟨[⟨1, [], 0⟩]⟩, some ⟨7, []⟩⟩],
    [⟨1, 2, 3, 4, some ⟨[]⟩, ⟨[]⟩⟩],
    [⟨"main", "_m", 9⟩]⟩

/-- A well-formed IR-module chunk holding an empty instruction list. -/
def goodIRChunk : Chunk := irWriteContainer ⟨[]⟩

/-- An IR-module chunk whose payload is malformed, so decoding fails. -/
def badIRChunk : Chunk :=
  Chunk.list .irModule [Chunk.data .irData (.irData none)]

/-- A container whose module list decodes one module and then fails. -/
def c5Container : Chunk :=
  .list .container
    [.data .header (.header 0), .list .moduleList [goodIRChunk, badIRChunk]]

/-- A chunk tree with no container-tagged List chunk anywhere. -/
def c7NoContainer : Chunk := .list .moduleList []

/-- A container chunk with no header Data chunk. -/
def c7NoHeader : Chunk := .list .container []

/-- A container chunk holding only the header. -/
def c7Minimal : Chunk := .list .container [.data .header (.header 0)]

/-- A snapshot with one module that carries neither IR nor AST. -/
def c8Data : SerialContainerData := ⟨[⟨false, none, none⟩], [], []⟩

/-- Options requesting IR output with debug info. -/
def c8Opts : WriteOptions := ⟨true, false, true, false, 0, []⟩

/-- A request with one target whose layout IR module is not yet created. -/
def c9Req : CompileRequestModel := ⟨[], [⟨0, 0, 0, 0, none, ⟨[]⟩⟩], []⟩

/-- The same request with the layout IR module already cached. -/
def c9ReqCached : CompileRequestModel :=
  ⟨[], [⟨0, 0, 0, 0, some ⟨[]⟩, ⟨[]⟩⟩], []⟩

/-- The header section of the container. -/
def headerSection (opts : WriteOptions) : Chunk :=
  Chunk.data .header (.header opts.compressionType)

/-- The container children `write` produces, described section by
section. -/
def writeChildren (data : SerialContainerData) (opts : WriteOptions) :
    List Chunk :=
  headerSection opts ::
    (moduleListSection data opts ++ entryPointSection data ++
      debugSection data opts ++ stringTableSection data)

/-- One string pool extends another when its added slices start with the
other's (handles stay valid and resolve to the same content). -/
def poolExtends (p q : StringSlicePool) : Prop :=
  ∃ t, q.added = p.added ++ t

/-! # Theorems -/

theorem recordLocs_isSome (slw : Option SourceLocWriterState)
    (ls : List Nat) : (recordLocs slw ls).isSome = slw.isSome := by
  cases slw <;> simp [recordLocs]

theorem asModuleDecl_eq_some {x : Option ASTNodeModel} {d : ModuleDeclModel}
    (h : asModuleDecl x = some d) : x = some (.moduleDecl d) := by
  match x with
  | some (.moduleDecl e) => simp [asModuleDecl] at h; simp [h]
  | some (.other i) => simp [asModuleDecl] at h
  | none => simp [asModuleDecl] at h

theorem findContainedData_append_some {tag : FourCC} {xs : List Chunk}
    {p : Payload} (h : findContainedData tag xs = some p) (ys : List Chunk) :
    findContainedData tag (xs ++ ys) = some p := by
  induction xs with
  | nil => simp [findContainedData] at h
  | cons c rest ih =>
    cases c with
    | data t q =>
      by_cases ht : t = tag
      · simp [findContainedData, ht] at h ⊢; exact h
      · simp [findContainedData, ht] at h ⊢; exact ih h
    | list t cs =>
      simp [findContainedData] at h ⊢; exact ih h

theorem findContainedData_append_none {tag : FourCC} {xs : List Chunk}
    (h : findContainedData tag xs = none) (ys : List Chunk) :
    findContainedData tag (xs ++ ys) = findContainedData tag ys := by
  induction xs with
  | nil => simp
  | cons c rest ih =>
    cases c with
    | data t q =>
      by_cases ht : t = tag
      · simp [findContainedData, ht] at h
      · simp [findContainedData, ht] at h ⊢; exact ih h
    | list t cs =>
      simp [findContainedData] at h ⊢; exact ih h

theorem findContainedList_append_some {tag : FourCC} {xs : List Chunk}
    {r : List Chunk} (h : findContainedList tag xs = some r) (ys : List Chunk) :
    findContainedList tag (xs ++ ys) = some r := by
  induction xs with
  | nil => simp [findContainedList] at h
  | cons c rest ih =>
    cases c with
    | data t q =>
      simp [findContainedList] at h ⊢; exact ih h
    | list t cs =>
      by_cases ht : t = tag
      · simp [findContainedList, ht] at h ⊢; exact h
      · simp [findContainedList, ht] at h ⊢; exact ih h

theorem findContainedList_append_none {tag : FourCC} {xs : List Chunk}
    (h : findContainedList tag xs = none) (ys : List Chunk) :
    findContainedList tag (xs ++ ys) = findContainedList tag ys := by
  induction xs with
  | nil => simp
  | cons c rest ih =>
    cases c with
    | data t q =>
      simp [findContainedList] at h ⊢; exact ih h
    | list t cs =>
      by_cases ht : t = tag
      · simp [findContainedList, ht] at h
      · simp [findContainedList, ht] at h ⊢; exact ih h

theorem findAllData_append (tag : FourCC) (xs ys : List Chunk) :
    findAllData tag (xs ++ ys) = findAllData tag xs ++ findAllData tag ys := by
  induction xs with
  | nil => simp [findAllData]
  | cons c rest ih =>
    cases c with
    | data t q =>
      by_cases ht : t = tag <;> simp [findAllData, ht, ih]
    | list t cs => simp [findAllData, ih]

theorem findContainedData_none_of (tag : FourCC) :
    ∀ xs : List Chunk, (∀ c ∈ xs, ∀ p, c ≠ Chunk.data tag p) →
      findContainedData tag xs = none
  | [], _ => rfl
  | (Chunk.data t p) :: rest, h => by
    have ht : ¬t = tag := by
      intro he
      exact h _ (List.mem_cons_self _ _) p (by rw [he])
    simp [findContainedData, ht]
    exact findContainedData_none_of tag rest
      (fun c hc => h c (List.mem_cons_of_mem _ hc))
  | (Chunk.list t cs) :: rest, h => by
    simp [findContainedData]
    exact findContainedData_none_of tag rest
      (fun c hc => h c (List.mem_cons_of_mem _ hc))

theorem findContainedList_none_of (tag : FourCC) :
    ∀ xs : List Chunk, (∀ c ∈ xs, ∀ cs, c ≠ Chunk.list tag cs) →
      findContainedList tag xs = none
  | [], _ => rfl
  | (Chunk.data t p) :: rest, h => by
    simp [findContainedList]
    exact findContainedList_none_of tag rest
      (fun c hc => h c (List.mem_cons_of_mem _ hc))
  | (Chunk.list t cs) :: rest, h => by
    have ht : ¬t = tag := by
      intro he
      exact h _ (List.mem_cons_self _ _) cs (by rw [he])
    simp [findContainedList, ht]
    exact findContainedList_none_of tag rest
      (fun c hc => h c (List.mem_cons_of_mem _ hc))

theorem findAllData_nil_of (tag : FourCC) :
    ∀ xs : List Chunk, (∀ c ∈ xs, ∀ p, c ≠ Chunk.data tag p) →
      findAllData tag xs = []
  | [], _ => rfl
  | (Chunk.data t p) :: rest, h => by
    have ht : ¬t = tag := by
      intro he
      exact h _ (List.mem_cons_self _ _) p (by rw [he])
    simp [findAllData, ht]
    exact findAllData_nil_of tag rest
      (fun c hc => h c (List.mem_cons_of_mem _ hc))
  | (Chunk.list t cs) :: rest, h => by
    simp [findAllData]
    exact findAllData_nil_of tag rest
      (fun c hc => h c (List.mem_cons_of_mem _ hc))

theorem poolIndex_get :
    ∀ (l : List String) (s : String) (i : Nat),
      poolIndex s l = some i → l.get? i = some s := by
  intro l
  induction l with
  | nil => intro s i h; simp [poolIndex] at h
  | cons t rest ih =>
    intro s i h
    by_cases he : t = s
    · simp [poolIndex, he] at h
      simp [← h, he]
    · simp [poolIndex, he] at h
      rcases h with ⟨j, hj, hi⟩
      subst hi
      rw [List.get?_cons_succ]
      exact ih s j hj

theorem poolIndex_lt {l : List String} {s : String} {i : Nat}
    (h : poolIndex s l = some i) : i < l.length := by
  have hg := poolIndex_get l s i h
  by_contra hge
  rw [List.get?_eq_none.mpr (Nat.le_of_not_lt hge)] at hg
  exact Option.noConfusion hg

theorem poolExtends_refl (p : StringSlicePool) : poolExtends p p :=
  ⟨[], by simp⟩

theorem poolExtends_trans {p q r : StringSlicePool}
    (h1 : poolExtends p q) (h2 : poolExtends q r) : poolExtends p r := by
  obtain ⟨t1, ht1⟩ := h1
  obtain ⟨t2, ht2⟩ := h2
  exact ⟨t1 ++ t2, by simp [ht2, ht1]⟩

theorem pool_add_extends (p : StringSlicePool) (s : String) :
    poolExtends p (p.add s).2 := by
  cases h : poolIndex s p.added with
  | some i => exact ⟨[], by simp [StringSlicePool.add, h]⟩
  | none => exact ⟨[s], by simp [StringSlicePool.add, h]⟩

theorem pool_add_lt (p : StringSlicePool) (s : String) :
    (p.add s).1 < (p.add s).2.added.length := by
  cases h : poolIndex s p.added with
  | some i =>
    have := poolIndex_lt h
    simp [StringSlicePool.add, h, this]
  | none => simp [StringSlicePool.add, h]

theorem pool_add_get (p : StringSlicePool) (s : String) :
    (p.add s).2.getSlice (p.add s).1 = s := by
  cases h : poolIndex s p.added with
  | some i =>
    have hg := poolIndex_get p.added s i h
    have e1 : (p.add s).1 = i := by simp [StringSlicePool.add, h]
    have e2 : (p.add s).2 = p := by simp [StringSlicePool.add, h]
    show (p.add s).2.added.getD (p.add s).1 "" = s
    rw [e1, e2, List.getD_eq_getD_get?, hg]
    rfl
  | none =>
    have e1 : (p.add s).1 = p.added.length := by simp [StringSlicePool.add, h]
    have e2 : (p.add s).2.added = p.added ++ [s] := by
      simp [StringSlicePool.add, h]
    show (p.add s).2.added.getD (p.add s).1 "" = s
    rw [e1, e2,
      List.getD_append_right p.added [s] "" p.added.length (Nat.le_refl _)]
    simp

theorem getSlice_mono {p q : StringSlicePool} (h : poolExtends p q)
    {i : Nat} (hi : i < p.added.length) : q.getSlice i = p.getSlice i := by
  obtain ⟨t, ht⟩ := h
  unfold StringSlicePool.getSlice
  rw [ht]
  exact List.getD_append _ _ _ _ hi

theorem writeEntryPointChunks_extends :
    ∀ (eps : List EntryPoint) (p : StringSlicePool),
      poolExtends p (writeEntryPointChunks eps p).2
  | [], p => poolExtends_refl p
  | e :: rest, p => by
    simp only [writeEntryPointChunks]
    exact poolExtends_trans (pool_add_extends p e.name)
      (poolExtends_trans (pool_add_extends _ e.mangledName)
        (writeEntryPointChunks_extends rest _))

theorem readEntryPoints_roundTrip :
    ∀ (eps : List EntryPoint) (p q : StringSlicePool),
      poolExtends (writeEntryPointChunks eps p).2 q →
      readEntryPoints q
          (findAllData .entryPoint (writeEntryPointChunks eps p).1) =
        (true, eps)
  | [], p, q, h => by
    simp [writeEntryPointChunks, findAllData, readEntryPoints]
  | e :: rest, p, q, h => by
    simp only [writeEntryPointChunks] at h ⊢
    have hrest :=
      readEntryPoints_roundTrip rest ((p.add e.name).2.add e.mangledName).2 q h
    have hq1 : poolExtends (p.add e.name).2 q :=
      poolExtends_trans (pool_add_extends _ e.mangledName)
        (poolExtends_trans (writeEntryPointChunks_extends rest _) h)
    have hq2 : poolExtends ((p.add e.name).2.add e.mangledName).2 q :=
      poolExtends_trans (writeEntryPointChunks_extends rest _) h
    have hname : q.getSlice (p.add e.name).1 = e.name := by
      rw [getSlice_mono hq1 (pool_add_lt p e.name)]
      exact pool_add_get p e.name
    have hmangled :
        q.getSlice ((p.add e.name).2.add e.mangledName).1 = e.mangledName := by
      rw [getSlice_mono hq2 (pool_add_lt _ e.mangledName)]
      exact pool_add_get _ e.mangledName
    simp [findAllData, readEntryPoints, hrest, hname, hmangled]

theorem writePool_added_nonempty (data : SerialContainerData)
    (h : data.entryPoints ≠ []) : (writePool data).added ≠ [] := by
  unfold writePool
  cases he : data.entryPoints with
  | nil => exact absurd he h
  | cons e rest =>
    have ha1 : ((⟨[]⟩ : StringSlicePool).add e.name).2.added = [e.name] := by
      simp [StringSlicePool.add, poolIndex]
    have hext :
        poolExtends ((⟨[]⟩ : StringSlicePool).add e.name).2
          (writeEntryPointChunks (e :: rest) ⟨[]⟩).2 := by
      simp only [writeEntryPointChunks]
      exact poolExtends_trans (pool_add_extends _ e.mangledName)
        (writeEntryPointChunks_extends rest _)
    obtain ⟨t, ht⟩ := hext
    rw [ht, ha1]
    simp

theorem isIRChunk_eq {c : Chunk} (h : isIRChunk c = true) :
    ∃ cs, c = Chunk.list .irModule cs := by
  cases c with
  | data t p => simp [isIRChunk] at h
  | list t cs =>
    cases t <;> simp [isIRChunk] at h
    exact ⟨cs, rfl⟩

theorem isASTChunk_eq {c : Chunk} (h : isASTChunk c = true) :
    ∃ cs, c = Chunk.list .astModule cs := by
  cases c with
  | data t p => simp [isASTChunk] at h
  | list t cs =>
    cases t <;> simp [isASTChunk] at h
    exact ⟨cs, rfl⟩

theorem readSlotStep_skip (c : Chunk) (rest : List Chunk)
    (hir : isIRChunk c = false) (hast : isASTChunk c = false) :
    readSlotStep (c :: rest) = some (⟨false, none, none⟩, rest) := by
  cases c with
  | data t p => rfl
  | list t cs =>
    cases t
    case irModule => simp [isIRChunk] at hir
    case astModule => simp [isASTChunk] at hast
    all_goals rfl

theorem readSlotStep_progress (c : Chunk) (rest : List Chunk)
    (o : SlotOutcome) (rest2 : List Chunk)
    (h : readSlotStep (c :: rest) = some (o, rest2)) :
    rest2.length ≤ rest.length := by
  by_cases hir : isIRChunk c = true
  · obtain ⟨cs, rfl⟩ := isIRChunk_eq hir
    simp only [readSlotStep] at h
    cases hic : irReadContainer cs with
    | none => rw [hic] at h; exact absurd h (by simp)
    | some d =>
      rw [hic] at h
      cases rest with
      | nil =>
        simp at h
        rw [← h.2]
      | cons c2 rest3 =>
        cases c2 with
        | data t2 p2 =>
          simp at h
          rw [← h.2]
        | list t2 cs2 =>
          cases t2 with
          | astModule =>
            dsimp only at h
            cases hap : readASTChunk cs2 with
            | none => rw [hap] at h; exact absurd h (by simp)
            | some pr =>
              obtain ⟨astB, root⟩ := pr
              rw [hap] at h
              simp at h
              rw [← h.2]
              simp [Nat.le_succ]
          | container => simp at h; rw [← h.2]
          | header => simp at h; rw [← h.2]
          | moduleList => simp at h; rw [← h.2]
          | irModule => simp at h; rw [← h.2]
          | irData => simp at h; rw [← h.2]
          | astData => simp at h; rw [← h.2]
          | entryPoint => simp at h; rw [← h.2]
          | debug => simp at h; rw [← h.2]
          | debugData => simp at h; rw [← h.2]
          | stringTable => simp at h; rw [← h.2]
  · have hirf : isIRChunk c = false := by simpa using hir
    by_cases hast : isASTChunk c = true
    · obtain ⟨cs, rfl⟩ := isASTChunk_eq hast
      simp only [readSlotStep] at h
      cases hap : readASTChunk cs with
      | none => rw [hap] at h; exact absurd h (by simp)
      | some pr =>
        obtain ⟨astB, root⟩ := pr
        rw [hap] at h
        simp at h
        rw [← h.2]
    · have hastf : isASTChunk c = false := by simpa using hast
      rw [readSlotStep_skip c rest hirf hastf] at h
      simp at h
      rw [← h.2]

theorem readModuleLoopAux_fuel :
    ∀ (f : Nat) (chunks : List Chunk), chunks.length ≤ f →
      readModuleLoopAux f chunks = readModuleLoopAux chunks.length chunks := by
  intro f
  induction f using Nat.strong_induction_on with
  | _ f ih =>
    intro chunks hlen
    cases chunks with
    | nil => cases f <;> rfl
    | cons c rest =>
      cases f with
      | zero => simp at hlen
      | succ g =>
        have hg : rest.length ≤ g := by simpa using hlen
        simp only [List.length_cons, readModuleLoopAux]
        cases hstep : readSlotStep (c :: rest) with
        | none => simp
        | some pr =>
          obtain ⟨o, rest2⟩ := pr
          have hprog := readSlotStep_progress c rest o rest2 hstep
          have e1 : readModuleLoopAux g rest2 =
              readModuleLoopAux rest2.length rest2 :=
            ih g (Nat.lt_succ_self g) rest2 (le_trans hprog hg)
          have e2 : readModuleLoopAux rest.length rest2 =
              readModuleLoopAux rest2.length rest2 :=
            ih rest.length (Nat.lt_succ_of_le hg) rest2 hprog
          simp [e1, e2]

theorem writeModuleChunks_none (opts : WriteOptions) :
    ∀ mods : List ContainerModule,
      writeModuleChunks opts mods none =
        (mods.flatMap (moduleChunksFor opts false), none)
  | [] => by simp [writeModuleChunks]
  | m :: rest => by
    have ih := writeModuleChunks_none opts rest
    cases hf : opts.irModuleFlag <;> cases hg : opts.astModuleFlag <;>
      cases hm : m.irModule <;> cases hd : asModuleDecl m.astRootNode <;>
        simp [writeModuleChunks, moduleChunksFor, hf, hg, hm, hd, ih,
          irWriteSerial, recordLocs]

theorem writeModuleChunks_some (opts : WriteOptions)
    (mgr : List (Nat × HumaneLoc)) :
    ∀ (mods : List ContainerModule) (acc : List Nat),
      writeModuleChunks opts mods (some ⟨mgr, acc⟩) =
        (mods.flatMap (moduleChunksFor opts true),
          some ⟨mgr, acc ++ mods.flatMap (moduleRecLocs opts)⟩)
  | [], acc => by simp [writeModuleChunks]
  | m :: rest, acc => by
    have ih := writeModuleChunks_some opts mgr rest
    cases hf : opts.irModuleFlag <;> cases hg : opts.astModuleFlag <;>
      cases hm : m.irModule <;> cases hd : asModuleDecl m.astRootNode <;>
        simp [writeModuleChunks, moduleChunksFor, moduleRecLocs, hf, hg, hm,
          hd, ih, irWriteSerial, recordLocs, List.append_assoc]

theorem writeTargetChunks_none (opts : WriteOptions) :
    ∀ tcs : List TargetComponent,
      writeTargetChunks opts tcs none =
        (tcs.map (targetChunkFor opts false), none)
  | [] => by simp [writeTargetChunks]
  | tc :: rest => by
    have ih := writeTargetChunks_none opts rest
    simp [writeTargetChunks, targetChunkFor, ih, irWriteSerial, recordLocs]

theorem writeTargetChunks_some (opts : WriteOptions)
    (mgr : List (Nat × HumaneLoc)) :
    ∀ (tcs : List TargetComponent) (acc : List Nat),
      writeTargetChunks opts tcs (some ⟨mgr, acc⟩) =
        (tcs.map (targetChunkFor opts true),
          some ⟨mgr, acc ++ tcs.flatMap targetRecLocs⟩)
  | [], acc => by simp [writeTargetChunks]
  | tc :: rest, acc => by
    have ih := writeTargetChunks_some opts mgr rest
    simp [writeTargetChunks, targetChunkFor, targetRecLocs, ih,
      irWriteSerial, recordLocs, List.append_assoc]

theorem write_eq_sections (data : SerialContainerData) (opts : WriteOptions) :
    write data opts = Chunk.list .container (writeChildren data opts) := by
  cases hml : moduleListCond data opts with
  | false =>
    unfold moduleListCond at hml
    unfold write writeChildren headerSection moduleListSection debugSection
      stringTableSection entryPointSection writePool moduleListCond
    simp [hml]
  | true =>
    unfold moduleListCond at hml
    cases hdbg : opts.debugInfoFlag with
    | false =>
      cases htc : targetCond data opts with
      | false =>
        unfold targetCond at htc
        unfold write writeChildren headerSection moduleListSection
          debugSection stringTableSection entryPointSection writePool
          moduleListCond targetCond writeRecorded
        simp [hml, hdbg, htc, writeModuleChunks_none]
      | true =>
        unfold targetCond at htc
        unfold write writeChildren headerSection moduleListSection
          debugSection stringTableSection entryPointSection writePool
          moduleListCond targetCond writeRecorded
        simp [hml, hdbg, htc, writeModuleChunks_none, writeTargetChunks_none]
    | true =>
      cases htc : targetCond data opts with
      | false =>
        unfold targetCond at htc
        unfold write writeChildren headerSection moduleListSection
          debugSection stringTableSection entryPointSection writePool
          moduleListCond targetCond writeRecorded
        simp [hml, hdbg, htc, targetCond, writeModuleChunks_some]
      | true =>
        unfold targetCond at htc
        unfold write writeChildren headerSection moduleListSection
          debugSection stringTableSection entryPointSection writePool
          moduleListCond targetCond writeRecorded
        simp [hml, hdbg, htc, targetCond, writeModuleChunks_some,
          writeTargetChunks_some]

theorem mem_moduleChunksFor {opts : WriteOptions} {b : Bool}
    {m : ContainerModule} {c : Chunk} (h : c ∈ moduleChunksFor opts b m) :
    (∃ cs, c = Chunk.list .irModule cs) ∨
      (∃ cs, c = Chunk.list .astModule cs) := by
  unfold moduleChunksFor at h
  rcases List.mem_append.mp h with h1 | h1
  · left
    cases hf : opts.irModuleFlag with
    | false => simp [hf] at h1
    | true =>
      simp only [hf] at h1
      cases hm : m.irModule with
      | none => simp [hm] at h1
      | some irm =>
        simp [hm] at h1
        subst h1
        exact ⟨_, rfl⟩
  · right
    cases hg : opts.astModuleFlag with
    | false => simp [hg] at h1
    | true =>
      simp only [hg] at h1
      cases hd : asModuleDecl m.astRootNode with
      | none => simp [hd] at h1
      | some decl =>
        simp [hd] at h1
        subst h1
        exact ⟨_, rfl⟩

theorem mem_writeEntryPointChunks :
    ∀ (eps : List EntryPoint) (p : StringSlicePool) (c : Chunk),
      c ∈ (writeEntryPointChunks eps p).1 →
      ∃ r, c = Chunk.data .entryPoint (.entryPoint r)
  | [], p, c, h => by simp [writeEntryPointChunks] at h
  | e :: rest, p, c, h => by
    simp only [writeEntryPointChunks, List.mem_cons] at h
    rcases h with h | h
    · exact ⟨_, h⟩
    · exact mem_writeEntryPointChunks rest _ c h

theorem readModuleLoopAux_mem :
    ∀ (f : Nat) (chunks : List Chunk) (m : ContainerModule),
      m ∈ (readModuleLoopAux f chunks).2 →
      m.astBuilder = true ∨ m.irModule.isSome = true := by
  intro f
  induction f with
  | zero =>
    intro chunks m hm
    cases chunks <;> simp [readModuleLoopAux] at hm
  | succ g ih =>
    intro chunks m hm
    cases chunks with
    | nil => simp [readModuleLoopAux] at hm
    | cons c rest =>
      simp only [readModuleLoopAux] at hm
      cases hstep : readSlotStep (c :: rest) with
      | none => rw [hstep] at hm; simp at hm
      | some pr =>
        obtain ⟨o, rest2⟩ := pr
        rw [hstep] at hm
        simp only [List.mem_append] at hm
        rcases hm with h1 | h1
        · cases he : o.emits with
          | false => rw [he] at h1; simp at h1
          | true =>
            rw [he] at h1
            simp at h1
            subst h1
            unfold SlotOutcome.emits at he
            unfold SlotOutcome.toModule
            simpa using he
        · exact ih rest2 m h1

theorem findContainedData_cons_data_ne {t tag : FourCC} (h : ¬t = tag)
    (p : Payload) (rest : List Chunk) :
    findContainedData tag (Chunk.data t p :: rest) =
      findContainedData tag rest := by
  simp [findContainedData, h]

theorem findContainedData_cons_list (tag t : FourCC) (cs rest : List Chunk) :
    findContainedData tag (Chunk.list t cs :: rest) =
      findContainedData tag rest := rfl

theorem findContainedList_cons_data (tag t : FourCC) (p : Payload)
    (rest : List Chunk) :
    findContainedList tag (Chunk.data t p :: rest) =
      findContainedList tag rest := rfl

theorem findContainedList_cons_list_ne {t tag : FourCC} (h : ¬t = tag)
    (cs rest : List Chunk) :
    findContainedList tag (Chunk.list t cs :: rest) =
      findContainedList tag rest := by
  simp [findContainedList, h]

theorem findAllData_cons_data_ne {t tag : FourCC} (h : ¬t = tag)
    (p : Payload) (rest : List Chunk) :
    findAllData tag (Chunk.data t p :: rest) = findAllData tag rest := by
  simp [findAllData, h]

theorem findAllData_cons_list (tag t : FourCC) (cs rest : List Chunk) :
    findAllData tag (Chunk.list t cs :: rest) = findAllData tag rest := rfl

theorem mem_moduleListSection {data : SerialContainerData}
    {opts : WriteOptions} {c : Chunk} (h : c ∈ moduleListSection data opts) :
    ∃ cs, c = Chunk.list .moduleList cs := by
  unfold moduleListSection at h
  split at h
  · simp at h; exact ⟨_, h⟩
  · simp at h

theorem mem_debugSection {data : SerialContainerData} {opts : WriteOptions}
    {c : Chunk} (h : c ∈ debugSection data opts) :
    ∃ cs, c = Chunk.list .debug cs := by
  unfold debugSection at h
  split at h
  · simp at h
    exact ⟨_, by rw [h]; rfl⟩
  · simp at h

theorem mem_stringTableSection {data : SerialContainerData} {c : Chunk}
    (h : c ∈ stringTableSection data) :
    ∃ p, c = Chunk.data .stringTable p := by
  unfold stringTableSection at h
  split at h
  · simp at h
  · simp at h; exact ⟨_, h⟩

theorem wc_header (data : SerialContainerData) (opts : WriteOptions) :
    readHeaderOf (writeChildren data opts) = some opts.compressionType := by
  unfold writeChildren headerSection readHeaderOf
  simp [findContainedData]

theorem wc_find_stringTable (data : SerialContainerData)
    (opts : WriteOptions) :
    findContainedData .stringTable (writeChildren data opts) =
      findContainedData .stringTable (stringTableSection data) := by
  have h1 :
      findContainedData .stringTable (moduleListSection data opts) = none :=
    findContainedData_none_of _ _ (fun c hc p => by
      obtain ⟨cs, rfl⟩ := mem_moduleListSection hc
      simp)
  have h2 : findContainedData .stringTable (entryPointSection data) = none :=
    findContainedData_none_of _ _ (fun c hc p => by
      obtain ⟨r, rfl⟩ :=
        mem_writeEntryPointChunks data.entryPoints ⟨[]⟩ c hc
      simp)
  have h3 :
      findContainedData .stringTable (debugSection data opts) = none :=
    findContainedData_none_of _ _ (fun c hc p => by
      obtain ⟨cs, rfl⟩ := mem_debugSection hc
      simp)
  unfold writeChildren headerSection
  rw [findContainedData_cons_data_ne (by decide)]
  simp only [List.append_assoc]
  rw [findContainedData_append_none h1, findContainedData_append_none h2,
    findContainedData_append_none h3]

theorem wc_pool (data : SerialContainerData) (opts : WriteOptions) :
    readStringPool (writeChildren data opts) =
      if (writePool data).added.isEmpty then (⟨[]⟩ : StringSlicePool)
      else writePool data := by
  unfold readStringPool
  rw [wc_find_stringTable]
  cases hstp : (writePool data).added.isEmpty with
  | true =>
    unfold stringTableSection
    simp [hstp, findContainedData]
  | false =>
    unfold stringTableSection
    simp [hstp, findContainedData]

theorem wc_find_debug (data : SerialContainerData) (opts : WriteOptions) :
    findContainedList .debug (writeChildren data opts) =
      findContainedList .debug (debugSection data opts) := by
  have h1 :
      findContainedList .debug (moduleListSection data opts) = none :=
    findContainedList_none_of _ _ (fun c hc cs => by
      obtain ⟨cs2, rfl⟩ := mem_moduleListSection hc
      simp)
  have h2 : findContainedList .debug (entryPointSection data) = none :=
    findContainedList_none_of _ _ (fun c hc cs => by
      obtain ⟨r, rfl⟩ :=
        mem_writeEntryPointChunks data.entryPoints ⟨[]⟩ c hc
      simp)
  have h4 : findContainedList .debug (stringTableSection data) = none :=
    findContainedList_none_of _ _ (fun c hc cs => by
      obtain ⟨p, rfl⟩ := mem_stringTableSection hc
      simp)
  unfold writeChildren headerSection
  rw [findContainedList_cons_data]
  simp only [List.append_assoc]
  rw [findContainedList_append_none h1, findContainedList_append_none h2]
  cases hd : debugSection data opts with
  | nil => simp [findContainedList, h4]
  | cons c rest =>
    obtain ⟨cs, rfl⟩ := mem_debugSection (hd ▸ List.mem_cons_self c rest)
    simp [findContainedList]

theorem wc_debugInfo (data : SerialContainerData) (opts : WriteOptions) :
    readDebugInfo (writeChildren data opts) =
      some (if moduleListCond data opts && opts.debugInfoFlag then
        some (debugEntries ⟨opts.sourceManager, writeRecorded data opts⟩)
      else none) := by
  unfold readDebugInfo
  rw [wc_find_debug]
  cases hc : moduleListCond data opts && opts.debugInfoFlag with
  | false =>
    unfold debugSection
    simp [hc, findContainedList]
  | true =>
    unfold debugSection
    simp [hc, findContainedList, debugWriteContainer, findContainedData]

theorem wc_find_moduleList (data : SerialContainerData)
    (opts : WriteOptions) :
    findContainedList .moduleList (writeChildren data opts) =
      if moduleListCond data opts then
        some (data.modules.flatMap (moduleChunksFor opts opts.debugInfoFlag) ++
          (if targetCond data opts then
            data.targetComponents.map (targetChunkFor opts opts.debugInfoFlag)
          else []))
      else none := by
  have h2 :
      findContainedList .moduleList (entryPointSection data) = none :=
    findContainedList_none_of _ _ (fun c hc cs => by
      obtain ⟨r, rfl⟩ :=
        mem_writeEntryPointChunks data.entryPoints ⟨[]⟩ c hc
      simp)
  have h3 : findContainedList .moduleList (debugSection data opts) = none :=
    findContainedList_none_of _ _ (fun c hc cs => by
      obtain ⟨cs2, rfl⟩ := mem_debugSection hc
      simp)
  have h4 :
      findContainedList .moduleList (stringTableSection data) = none :=
    findContainedList_none_of _ _ (fun c hc cs => by
      obtain ⟨p, rfl⟩ := mem_stringTableSection hc
      simp)
  unfold writeChildren headerSection
  rw [findContainedList_cons_data]
  simp only [List.append_assoc]
  cases hml : moduleListCond data opts with
  | false =>
    unfold moduleListSection
    rw [hml, if_neg (show ¬(false = true) by simp), List.nil_append,
      findContainedList_append_none h2, findContainedList_append_none h3]
    simp [h4]
  | true =>
    unfold moduleListSection
    simp [hml, findContainedList]

theorem wc_findAll_entryPoint (data : SerialContainerData)
    (opts : WriteOptions) :
    findAllData .entryPoint (writeChildren data opts) =
      findAllData .entryPoint (entryPointSection data) := by
  have h1 : findAllData .entryPoint (moduleListSection data opts) = [] :=
    findAllData_nil_of _ _ (fun c hc p => by
      obtain ⟨cs, rfl⟩ := mem_moduleListSection hc
      simp)
  have h3 : findAllData .entryPoint (debugSection data opts) = [] :=
    findAllData_nil_of _ _ (fun c hc p => by
      obtain ⟨cs, rfl⟩ := mem_debugSection hc
      simp)
  have h4 : findAllData .entryPoint (stringTableSection data) = [] :=
    findAllData_nil_of _ _ (fun c hc p => by
      obtain ⟨q, rfl⟩ := mem_stringTableSection hc
      simp)
  unfold writeChildren headerSection
  rw [findAllData_cons_data_ne (by decide)]
  simp only [List.append_assoc, findAllData_append, h1, h3, h4]
  simp

theorem readModuleLoop_cons (c : Chunk) (rest : List Chunk) :
    readModuleLoop (c :: rest) =
      match readSlotStep (c :: rest) with
      | none => (false, [])
      | some (o, rest2) =>
        ((readModuleLoop rest2).1,
          (if o.emits then [o.toModule] else []) ++ (readModuleLoop rest2).2) := by
  unfold readModuleLoop
  simp only [List.length_cons, readModuleLoopAux]
  cases hstep : readSlotStep (c :: rest) with
  | none => simp
  | some pr =>
    obtain ⟨o, rest2⟩ := pr
    have hprog := readSlotStep_progress c rest o rest2 hstep
    simp [readModuleLoopAux_fuel rest.length rest2 hprog]

theorem findListRec_self (tag : FourCC) (cs : List Chunk) :
    findListRec tag (Chunk.list tag cs) = some cs := by
  unfold findListRec
  simp

theorem readModuleLoop_targetChunks (opts : WriteOptions) (b : Bool) :
    ∀ tcs : List TargetComponent,
      readModuleLoop (tcs.map (targetChunkFor opts b)) =
        (true, tcs.map fun tc =>
          (⟨false, none, some (irReadSerial (irStoreData opts b tc.irModule))⟩ :
            ContainerModule))
  | [] => by simp [readModuleLoop, readModuleLoopAux]
  | tc :: rest => by
    have ih := readModuleLoop_targetChunks opts b rest
    rw [List.map_cons, readModuleLoop_cons]
    have hstep :
        readSlotStep (targetChunkFor opts b tc ::
            rest.map (targetChunkFor opts b)) =
          some (⟨false, none,
              some (irReadSerial (irStoreData opts b tc.irModule))⟩,
            rest.map (targetChunkFor opts b)) := by
      cases rest with
      | nil => rfl
      | cons tc2 rest2 => rfl
    rw [hstep]
    simp [ih, SlotOutcome.emits, SlotOutcome.toModule]

theorem readModuleLoop_moduleChunks (opts : WriteOptions) (b : Bool)
    (hIR : opts.irModuleFlag = true) (hAST : opts.astModuleFlag = true) :
    ∀ (mods : List ContainerModule) (tail : List Chunk),
      (∀ m ∈ mods, m.irModule.isSome = true ∧
        (asModuleDecl m.astRootNode).isSome = true) →
      readModuleLoop (mods.flatMap (moduleChunksFor opts b) ++ tail) =
        ((readModuleLoop tail).1,
          (mods.map fun m =>
            (⟨true, m.astRootNode,
              m.irModule.map fun irm =>
                irReadSerial (irStoreData opts b irm)⟩ : ContainerModule)) ++
            (readModuleLoop tail).2)
  | [], tail, _ => by simp
  | m :: mods, tail, hall => by
    obtain ⟨irm, hirm⟩ :=
      Option.isSome_iff_exists.mp (hall m (List.mem_cons_self _ _)).1
    obtain ⟨decl, hdecl⟩ :=
      Option.isSome_iff_exists.mp (hall m (List.mem_cons_self _ _)).2
    have hroot := asModuleDecl_eq_some hdecl
    have hchunks : moduleChunksFor opts b m =
        [irWriteContainer (irStoreData opts b irm),
          astWriteContainer decl] := by
      unfold moduleChunksFor
      simp [hIR, hAST, hirm, hdecl]
    have ih := readModuleLoop_moduleChunks opts b hIR hAST mods tail
      (fun x hx => hall x (List.mem_cons_of_mem _ hx))
    rw [List.flatMap_cons, hchunks]
    simp only [List.cons_append, List.nil_append]
    rw [readModuleLoop_cons]
    have hstep :
        readSlotStep (irWriteContainer (irStoreData opts b irm) ::
            astWriteContainer decl ::
            (mods.flatMap (moduleChunksFor opts b) ++ tail)) =
          some (⟨true, some (.moduleDecl decl),
              some (irReadSerial (irStoreData opts b irm))⟩,
            mods.flatMap (moduleChunksFor opts b) ++ tail) := rfl
    rw [hstep]
    simp [ih, SlotOutcome.emits, SlotOutcome.toModule, hroot, hirm]

theorem read_write_roundTrip (data : SerialContainerData)
    (opts : WriteOptions)
    (hIR : opts.irModuleFlag = true) (hAST : opts.astModuleFlag = true)
    (hall : ∀ m ∈ data.modules, m.irModule.isSome = true ∧
      (asModuleDecl m.astRootNode).isSome = true) :
    read (write data opts) =
      (true, ⟨data.modules.map (rtModule opts) ++ rtTargets data opts, [],
        data.entryPoints⟩) := by
  rw [write_eq_sections]
  have hfind : findListRec .container
      (Chunk.list .container (writeChildren data opts)) =
      some (writeChildren data opts) := findListRec_self _ _
  have hmres :
      (match findContainedList .moduleList (writeChildren data opts) with
        | none => (true, ([] : List ContainerModule))
        | some mchunks => readModuleLoop mchunks) =
      (true, data.modules.map (rtModule opts) ++ rtTargets data opts) := by
    rw [wc_find_moduleList]
    cases hml : moduleListCond data opts with
    | false =>
      have hmods : data.modules = [] := by
        unfold moduleListCond at hml
        simp [hIR] at hml
        exact hml
      unfold rtTargets
      simp [hml, hmods]
    | true =>
      cases htc : targetCond data opts with
      | false =>
        have hrt := readModuleLoop_moduleChunks opts opts.debugInfoFlag hIR
          hAST data.modules [] hall
        simp only [List.append_nil] at hrt
        simp only [if_true, if_neg (show ¬(false = true) by simp),
          List.append_nil]
        show readModuleLoop
            (data.modules.flatMap (moduleChunksFor opts opts.debugInfoFlag)) =
          _
        rw [hrt]
        unfold rtTargets rtModule irRoundTrip
        simp [readModuleLoop, readModuleLoopAux, hml, htc]
      | true =>
        simp only [if_true]
        show readModuleLoop
            (data.modules.flatMap (moduleChunksFor opts opts.debugInfoFlag) ++
              data.targetComponents.map
                (targetChunkFor opts opts.debugInfoFlag)) = _
        rw [readModuleLoop_moduleChunks opts opts.debugInfoFlag hIR hAST
          data.modules _ hall]
        rw [readModuleLoop_targetChunks]
        unfold rtTargets rtModule irRoundTrip
        simp [hml, htc]
  have heres :
      readEntryPoints (readStringPool (writeChildren data opts))
        (findAllData .entryPoint (writeChildren data opts)) =
      (true, data.entryPoints) := by
    rw [wc_findAll_entryPoint, wc_pool]
    cases heps : data.entryPoints with
    | nil =>
      unfold entryPointSection writePool
      simp [heps, writeEntryPointChunks, findAllData, readEntryPoints]
    | cons e rest =>
      have hne : (writePool data).added.isEmpty = false := by
        have := writePool_added_nonempty data (by rw [heps]; simp)
        cases hq : (writePool data).added.isEmpty with
        | false => rfl
        | true => exact absurd (List.isEmpty_iff.mp hq) this
      rw [hne]
      simp only [if_neg (show ¬(false = true) by simp)]
      unfold entryPointSection writePool
      rw [← heps]
      exact readEntryPoints_roundTrip data.entryPoints ⟨[]⟩ _
        (poolExtends_refl _)
  unfold read
  simp only [hfind, wc_header, wc_debugInfo, hmres, heres]
  simp

theorem assocFind_map_self {α : Type} (f : Nat → α) :
    ∀ (l : List Nat) (r : Nat), r ∈ l →
      assocFind r (l.map fun x => (x, f x)) = some (f r)
  | [], r, h => by simp at h
  | x :: rest, r, h => by
    by_cases he : x = r
    · subst he
      simp [assocFind]
    · rcases List.mem_cons.mp h with h1 | h1
      · exact absurd h1.symm he
      · simp only [List.map_cons, assocFind, if_neg he]
        exact assocFind_map_self f rest r h1

theorem verifySlwFinal_debug (m : IRModuleModel) (opts : WriteOptions)
    (hdbg : opts.debugInfoFlag = true) :
    verifySlwFinal m opts =
      some ⟨opts.sourceManager,
        (m.insts.map IRInst.sourceLoc).filter (· ≠ 0)⟩ := by
  unfold verifySlwFinal irWriteSerial verifySlw
  simp [hdbg, recordLocs]

theorem resolveRead_verify (m : IRModuleModel) (opts : WriteOptions)
    (hdbg : opts.debugInfoFlag = true) {r : Nat}
    (hr : r ∈ m.insts.map IRInst.sourceLoc) :
    resolveRead (verifyWorkEntries m opts) r =
      resolveLoc opts.sourceManager r := by
  unfold verifyWorkEntries
  rw [verifySlwFinal_debug m opts hdbg]
  by_cases h0 : r = 0
  · subst h0
    simp [resolveRead, resolveLoc]
  · have hmem : r ∈ (m.insts.map IRInst.sourceLoc).filter (· ≠ 0) := by
      simp [List.mem_filter, hr, h0]
    unfold resolveRead debugEntries
    rw [if_neg h0]
    simp only [Option.map_some']
    rw [assocFind_map_self (resolveLoc opts.sourceManager) _ r hmem]

/-- C1 (confirmed, over spec-modelled codecs): whenever `verifyIRSerialize`
returns success, the written and re-read flattened instruction payloads
compare equal, the reconstructed module has the same instruction count as
the original, with the raw-source-location flag every instruction's raw
location equals the original's, and with the debug-info flag (raw not set)
every instruction's location resolves — in the verifier's fresh work
source manager — to the same line, column and found path as the original
resolves to in the original source manager. -/
theorem verifyIRSerialize_roundTrip (m : IRModuleModel) (opts : WriteOptions)
    (h : verifyIRSerialize m opts = true) :
    verifyRereadData m opts = some (verifyWrittenData m opts) ∧
    (verifyReadModule m opts).insts.length = m.insts.length ∧
    (opts.rawSourceLocationFlag = true →
      ∀ i, ((verifyReadModule m opts).insts.get? i).map IRInst.sourceLoc =
        (m.insts.get? i).map IRInst.sourceLoc) ∧
    (opts.debugInfoFlag = true → opts.rawSourceLocationFlag = false →
      ∀ i oi ri, m.insts.get? i = some oi →
        (verifyReadModule m opts).insts.get? i = some ri →
        resolveRead (verifyWorkEntries m opts) ri.sourceLoc =
          resolveLoc opts.sourceManager oi.sourceLoc) := by
  refine ⟨?_, ?_, ?_, ?_⟩
  · unfold verifyRereadData riffStreamRoundTrip verifyContainer
    simp [findContainedList, irReadContainer, findContainedData]
  · unfold verifyReadModule irReadSerial verifyWrittenData irWriteSerial
      irStoreData
    simp
  · intro hraw i
    unfold verifyReadModule irReadSerial verifyWrittenData irWriteSerial
      irStoreData
    rw [List.get?_map, List.get?_map]
    cases m.insts.get? i <;> simp [hraw]
  · intro hdbg hrawf i oi ri hoi hri
    have hslw : (verifySlw opts).isSome = true := by simp [verifySlw, hdbg]
    have hreq : ri = ⟨oi.op, oi.operands, oi.sourceLoc⟩ := by
      unfold verifyReadModule irReadSerial verifyWrittenData irWriteSerial
        irStoreData at hri
      rw [List.get?_map, List.get?_map, hoi] at hri
      simp [hslw] at hri
      exact hri.symm
    have hmem : oi.sourceLoc ∈ m.insts.map IRInst.sourceLoc :=
      List.mem_map_of_mem _ (List.get?_mem hoi)
    rw [hreq]
    exact resolveRead_verify m opts hdbg hmem

/-- Witness for C1 at a concrete module and debug-info options. -/
theorem verifyIRSerialize_roundTrip_witness :
    verifyIRSerialize c1Module c1Opts = true ∧
    (verifyRereadData c1Module c1Opts =
        some (verifyWrittenData c1Module c1Opts) ∧
      (verifyReadModule c1Module c1Opts).insts.length =
        c1Module.insts.length ∧
      (c1Opts.rawSourceLocationFlag = true →
        ∀ i, ((verifyReadModule c1Module c1Opts).insts.get? i).map
            IRInst.sourceLoc =
          (c1Module.insts.get? i).map IRInst.sourceLoc) ∧
      (c1Opts.debugInfoFlag = true → c1Opts.rawSourceLocationFlag = false →
        ∀ i oi ri, c1Module.insts.get? i = some oi →
          (verifyReadModule c1Module c1Opts).insts.get? i = some ri →
          resolveRead (verifyWorkEntries c1Module c1Opts) ri.sourceLoc =
            resolveLoc c1Opts.sourceManager oi.sourceLoc)) :=
  ⟨by decide, verifyIRSerialize_roundTrip c1Module c1Opts (by decide)⟩

theorem writeEntryPointChunks_shape :
    ∀ (eps : List EntryPoint) (p : StringSlicePool),
      ∃ rs : List EntryPointRecord,
        (writeEntryPointChunks eps p).1 =
          rs.map (fun r => Chunk.data .entryPoint (.entryPoint r)) ∧
        rs.length = eps.length
  | [], p => ⟨[], by simp [writeEntryPointChunks]⟩
  | e :: rest, p => by
    obtain ⟨rs, h1, h2⟩ :=
      writeEntryPointChunks_shape rest ((p.add e.name).2.add e.mangledName).2
    exact ⟨⟨(p.add e.name).1, e.profile,
        ((p.add e.name).2.add e.mangledName).1⟩ :: rs,
      by simp [writeEntryPointChunks, h1, h2]⟩

/-- C2 counterexample: with one module (carrying no payload), one target
component and IR-only options, the target's IR payload is emitted inside
the module-list chunk, and nothing for the target appears at container
level after the module-list chunk — contradicting the claim that the
per-target IR payloads appear after (outside) the module-list chunk. -/
theorem write_targetChunks_inside_moduleList :
    write c2Data c2Opts =
      Chunk.list .container
        [Chunk.data .header (.header 0),
          Chunk.list .moduleList
            [Chunk.list .irModule
              [Chunk.data .irData
                (.irData (some ⟨[⟨9, [], 0⟩]⟩))]]] := by
  rfl

/-- C2 (amended): `write` produces, in order, the header Data chunk, then —
when modules exist and IR or AST output is requested — the module-list
chunk containing, per module, the IR payload (if requested and present)
followed by the AST payload (if requested and the root is a module
declaration), with the per-target IR payloads (only when targets exist and
IR output is requested) appearing at the end of, and inside, the
module-list chunk; then one Data chunk per entry point, then the
debug-info chunk, then the string-table chunk. -/
theorem write_sections_order (data : SerialContainerData)
    (opts : WriteOptions) :
    write data opts =
      Chunk.list .container
        (headerSection opts ::
          (moduleListSection data opts ++ entryPointSection data ++
            debugSection data opts ++ stringTableSection data)) ∧
    (∃ rs : List EntryPointRecord,
      entryPointSection data =
        rs.map (fun r => Chunk.data .entryPoint (.entryPoint r)) ∧
      rs.length = data.entryPoints.length) :=
  ⟨write_eq_sections data opts, writeEntryPointChunks_shape data.entryPoints ⟨[]⟩⟩

theorem extractTargets_eq :
    ∀ ts : List TargetModel,
      extractTargets ts = (ts.map targetToComponent, ts.map afterLayout)
  | [] => rfl
  | t :: rest => by
    have ih := extractTargets_eq rest
    obtain ⟨a, b, c, d, lay, fresh⟩ := t
    cases lay <;>
      simp [extractTargets, getOrCreateIRModuleForLayout, targetToComponent,
        afterLayout, ih]

/-- C3 counterexample: a snapshot with one target component round-trips to a
snapshot with no target components at all (the target's IR payload comes
back as an extra module instead), so target order is not preserved
end-to-end through write and read. -/
theorem roundTrip_drops_targetComponents :
    (read (write c3Data c3Opts)).1 = true ∧
    (read (write c3Data c3Opts)).2.targetComponents = [] ∧
    c3Data.targetComponents.length = 1 ∧
    (read (write c3Data c3Opts)).2.modules.length = 2 := by
  refine ⟨by decide, by decide, by decide, by decide⟩

/-- C3 (amended): `requestToData` preserves translation-unit order in the
module list, target order in the target-component list and entry-point
order in the entry-point list (each output list is a `map` of the
corresponding input list); and for a snapshot whose modules all carry both
an IR module and a module-declaration root, writing with IR and AST output
requested and reading back succeeds and yields the modules in order,
followed — when targets were written — by the target IR payloads as extra
modules in target order, and the entry points in order; target components
themselves are not reconstructed. -/
theorem order_preservation_roundTrip (req : CompileRequestModel)
    (data : SerialContainerData) (opts : WriteOptions)
    (hIR : opts.irModuleFlag = true) (hAST : opts.astModuleFlag = true)
    (hall : ∀ m ∈ data.modules, m.irModule.isSome = true ∧
      (asModuleDecl m.astRootNode).isSome = true) :
    (requestToData req).1.modules = req.translationUnits.map tuToModule ∧
    (requestToData req).1.targetComponents =
      req.targets.map targetToComponent ∧
    (requestToData req).1.entryPoints = req.entryPoints.map epToEntryPoint ∧
    read (write data opts) =
      (true, ⟨data.modules.map (rtModule opts) ++ rtTargets data opts, [],
        data.entryPoints⟩) := by
  refine ⟨?_, ?_, ?_, read_write_roundTrip data opts hIR hAST hall⟩
  · simp [requestToData]
  · simp [requestToData, extractTargets_eq]
  · simp [requestToData]

/-- Witness for C3 at a concrete request, snapshot and options. -/
theorem order_preservation_roundTrip_witness :
    (c3Opts.irModuleFlag = true ∧ c3Opts.astModuleFlag = true ∧
      (∀ m ∈ c3Data.modules, m.irModule.isSome = true ∧
        (asModuleDecl m.astRootNode).isSome = true)) ∧
    ((requestToData c3Req).1.modules =
        c3Req.translationUnits.map tuToModule ∧
      (requestToData c3Req).1.targetComponents =
        c3Req.targets.map targetToComponent ∧
      (requestToData c3Req).1.entryPoints =
        c3Req.entryPoints.map epToEntryPoint ∧
      read (write c3Data c3Opts) =
        (true, ⟨c3Data.modules.map (rtModule c3Opts) ++
          rtTargets c3Data c3Opts, [], c3Data.entryPoints⟩)) :=
  ⟨⟨rfl, rfl, by decide⟩,
    order_preservation_roundTrip c3Req c3Data c3Opts rfl rfl (by decide)⟩

/-- C4 (confirmed): every module in `read`'s output carries a decoded AST
builder or a decoded IR module; and each slot of the module loop
contributes exactly one module when its outcome decoded an AST builder or
an IR module, and nothing otherwise — an empty slot is dropped entirely. -/
theorem read_emits_module_iff_payload :
    (∀ (chunks : List Chunk) (m : ContainerModule),
      m ∈ (readModuleLoop chunks).2 →
      m.astBuilder = true ∨ m.irModule.isSome = true) ∧
    (∀ (c : Chunk) (rest : List Chunk) (o : SlotOutcome)
      (rest2 : List Chunk),
      readSlotStep (c :: rest) = some (o, rest2) →
      (readModuleLoop (c :: rest)).2 =
        (if o.emits then [o.toModule] else []) ++
          (readModuleLoop rest2).2) := by
  constructor
  · intro chunks m hm
    exact readModuleLoopAux_mem chunks.length chunks m hm
  · intro c rest o rest2 hstep
    rw [readModuleLoop_cons, hstep]

/-- Witness for C4 at a concrete module-list chunk stream. -/
theorem read_emits_module_iff_payload_witness :
    ((⟨false, none, some (⟨[]⟩ : IRModuleModel)⟩ :
        ContainerModule).astBuilder = true ∨
      (⟨false, none, some (⟨[]⟩ : IRModuleModel)⟩ :
        ContainerModule).irModule.isSome = true) ∧
    (readModuleLoop [goodIRChunk]).2 =
      (if (⟨false, none, some (⟨[]⟩ : IRModuleModel)⟩ :
          SlotOutcome).emits then
        [(⟨false, none, some (⟨[]⟩ : IRModuleModel)⟩ :
          SlotOutcome).toModule]
      else []) ++ (readModuleLoop []).2 :=
  ⟨read_emits_module_iff_payload.1 [goodIRChunk] _ (by decide),
    read_emits_module_iff_payload.2 goodIRChunk [] _ [] (by decide)⟩

/-- C5 counterexample: a container whose module list holds one well-formed
IR chunk followed by one malformed IR chunk makes `read` return a failure
code together with a non-empty snapshot — the module decoded before the
failure survives in the output, contradicting the claim that no partially
decoded content accompanies a failure code. -/
theorem read_failure_partial_snapshot :
    read c5Container =
      (false,
        ⟨[⟨false, none, some (⟨[]⟩ : IRModuleModel)⟩], [], []⟩) ∧
    (read c5Container).2 ≠ SerialContainerData.empty := by
  refine ⟨by decide, by decide⟩

/-- C5 (amended): `read` clears the output at entry; its output never
contains target components; a failure while locating the container chunk,
or while decoding the debug-info chunk, leaves the output empty; but a
failure inside the module loop returns the failure code together with the
modules decoded before the failure point, which the caller must discard. -/
theorem read_failure_phases (root : Chunk) :
    (∀ b out, read root = (b, out) → out.targetComponents = []) ∧
    (findListRec .container root = none →
      read root = (false, SerialContainerData.empty)) ∧
    (∀ children, findListRec .container root = some children →
      readDebugInfo children = none →
      read root = (false, SerialContainerData.empty)) ∧
    (∀ children mchunks ct lr,
      findListRec .container root = some children →
      readHeaderOf children = some ct →
      readDebugInfo children = some lr →
      findContainedList .moduleList children = some mchunks →
      (readModuleLoop mchunks).1 = false →
      read root = (false, ⟨(readModuleLoop mchunks).2, [], []⟩)) := by
  refine ⟨?_, ?_, ?_, ?_⟩
  · intro b out h
    cases hfc : findListRec .container root with
    | none =>
      unfold read at h
      rw [hfc] at h
      cases h
      rfl
    | some children =>
      cases hh : readHeaderOf children with
      | none =>
        unfold read at h
        simp only [hfc, hh] at h
        cases h
        rfl
      | some ct =>
        cases hd : readDebugInfo children with
        | none =>
          unfold read at h
          simp only [hfc, hh, hd] at h
          cases h
          rfl
        | some lr =>
          unfold read at h
          simp only [hfc, hh, hd] at h
          split at h
          · cases h; rfl
          · cases h; rfl
  · intro h
    unfold read
    rw [h]
  · intro children hc hd
    unfold read
    cases hh : readHeaderOf children with
    | none => simp [hc, hh]
    | some ct => simp [hc, hh, hd]
  · intro children mchunks ct lr hc hh hd hm hfail
    unfold read
    simp only [hc, hh, hd, hm]
    simp [hfail]

/-- Witness for C5 at concrete containers. -/
theorem read_failure_phases_witness :
    (read c5Container).2.targetComponents = [] ∧
    read c7NoContainer = (false, SerialContainerData.empty) ∧
    read c5Container =
      (false, ⟨(readModuleLoop [goodIRChunk, badIRChunk]).2, [], []⟩) :=
  ⟨(read_failure_phases c5Container).1 (read c5Container).1
      (read c5Container).2 rfl,
    (read_failure_phases c7NoContainer).2.1 (by decide),
    (read_failure_phases c5Container).2.2.2
      [Chunk.data .header (.header 0),
        Chunk.list .moduleList [goodIRChunk, badIRChunk]]
      [goodIRChunk, badIRChunk] 0 none
      (by decide) (by decide) (by decide) (by decide) (by decide)⟩

/-- C6 (confirmed): writing the empty snapshot produces a container holding
only the header Data chunk — no module-list, entry-point, debug-info or
string-table chunk — and reading it back succeeds with an empty
snapshot. -/
theorem write_read_empty_snapshot (opts : WriteOptions) :
    write SerialContainerData.empty opts =
      Chunk.list .container
        [Chunk.data .header (.header opts.compressionType)] ∧
    read (write SerialContainerData.empty opts) =
      (true, SerialContainerData.empty) :=
  ⟨rfl, rfl⟩

/-- C7 (confirmed): `read` fails with an empty output when no
container-tagged List chunk is found, and when the container chunk has no
header Data chunk; when both are present it proceeds, an absent
string-table chunk decoding as the empty pool and an absent debug-info
chunk as no debug information, neither being an error. -/
theorem read_required_and_optional_chunks (root : Chunk) :
    (findListRec .container root = none →
      read root = (false, SerialContainerData.empty)) ∧
    (∀ children, findListRec .container root = some children →
      readHeaderOf children = none →
      read root = (false, SerialContainerData.empty)) ∧
    (∀ children, findListRec .container root = some children →
      findContainedData .stringTable children = none →
      readStringPool children = ⟨[]⟩) ∧
    (∀ children, findListRec .container root = some children →
      findContainedList .debug children = none →
      readDebugInfo children = some none) := by
  refine ⟨?_, ?_, ?_, ?_⟩
  · intro h
    unfold read
    rw [h]
  · intro children hc hh
    unfold read
    simp [hc, hh]
  · intro children _ hst
    unfold readStringPool
    rw [hst]
  · intro children _ hd
    unfold readDebugInfo
    rw [hd]

/-- Witness for C7 at concrete containers. -/
theorem read_required_and_optional_chunks_witness :
    read c7NoContainer = (false, SerialContainerData.empty) ∧
    read c7NoHeader = (false, SerialContainerData.empty) ∧
    readStringPool [Chunk.data .header (.header 0)] = ⟨[]⟩ ∧
    readDebugInfo [Chunk.data .header (.header 0)] = some none :=
  ⟨(read_required_and_optional_chunks c7NoContainer).1 (by decide),
    (read_required_and_optional_chunks c7NoHeader).2.1 [] (by decide)
      (by decide),
    (read_required_and_optional_chunks c7Minimal).2.2.1
      [Chunk.data .header (.header 0)] (by decide) (by decide),
    (read_required_and_optional_chunks c7Minimal).2.2.2
      [Chunk.data .header (.header 0)] (by decide) (by decide)⟩

/-- C8 counterexample: with one module carrying no serializable payload and
IR-plus-debug-info options, no source location is ever recorded, yet the
debug-info chunk is still written (with an empty table) — the source
creates the location writer from the flags alone and emits the chunk
whenever the writer exists, contradicting the claim that the chunk is
emitted only if at least one location was recorded. -/
theorem write_debug_chunk_without_recorded_locs :
    write c8Data c8Opts =
      Chunk.list .container
        [Chunk.data .header (.header 0),
          Chunk.list .moduleList [],
          Chunk.list .debug
            [Chunk.data .debugData (.debugData (some []))]] ∧
    writeRecorded c8Data c8Opts = [] ∧
    debugChunkPresent (write c8Data c8Opts) = true :=
  ⟨rfl, rfl, rfl⟩

/-- C8 (amended): `write` emits the debug-info chunk exactly when the
module-list block runs (modules exist and IR or AST output is requested)
and debug info is requested — whether or not any source location was
recorded — and emits the string-table chunk exactly when the container
string pool is non-empty after the entry-point loop. -/
theorem write_optional_chunk_conditions (data : SerialContainerData)
    (opts : WriteOptions) :
    debugChunkPresent (write data opts) =
      (moduleListCond data opts && opts.debugInfoFlag) ∧
    stringTablePresent (write data opts) =
      !(writePool data).added.isEmpty := by
  rw [write_eq_sections]
  unfold debugChunkPresent stringTablePresent writeChildren headerSection
  constructor
  · simp only [List.any_cons, List.any_append]
    have h1 : (moduleListSection data opts).any
        (fun ch => match ch with
          | Chunk.list .debug _ => true
          | _ => false) = false :=
      List.any_eq_false.mpr (fun x hx => by
        obtain ⟨cs, rfl⟩ := mem_moduleListSection hx
        simp)
    have h2 : (entryPointSection data).any
        (fun ch => match ch with
          | Chunk.list .debug _ => true
          | _ => false) = false :=
      List.any_eq_false.mpr (fun x hx => by
        obtain ⟨r, rfl⟩ :=
          mem_writeEntryPointChunks data.entryPoints ⟨[]⟩ x hx
        simp)
    have h4 : (stringTableSection data).any
        (fun ch => match ch with
          | Chunk.list .debug _ => true
          | _ => false) = false :=
      List.any_eq_false.mpr (fun x hx => by
        obtain ⟨p, rfl⟩ := mem_stringTableSection hx
        simp)
    rw [h1, h2, h4]
    unfold debugSection
    cases hc : moduleListCond data opts && opts.debugInfoFlag <;>
      simp [debugWriteContainer]
  · simp only [List.any_cons, List.any_append]
    have h1 : (moduleListSection data opts).any
        (fun ch => match ch with
          | Chunk.data .stringTable _ => true
          | _ => false) = false :=
      List.any_eq_false.mpr (fun x hx => by
        obtain ⟨cs, rfl⟩ := mem_moduleListSection hx
        simp)
    have h2 : (entryPointSection data).any
        (fun ch => match ch with
          | Chunk.data .stringTable _ => true
          | _ => false) = false :=
      List.any_eq_false.mpr (fun x hx => by
        obtain ⟨r, rfl⟩ :=
          mem_writeEntryPointChunks data.entryPoints ⟨[]⟩ x hx
        simp)
    have h3 : (debugSection data opts).any
        (fun ch => match ch with
          | Chunk.data .stringTable _ => true
          | _ => false) = false :=
      List.any_eq_false.mpr (fun x hx => by
        obtain ⟨cs, rfl⟩ := mem_debugSection hx
        simp)
    rw [h1, h2, h3]
    unfold stringTableSection
    cases hstp : (writePool data).added.isEmpty <;> simp [hstp]

/-- C9 counterexample: extracting from a request whose target has no cached
IR-module-for-layout creates and caches that module — the compilation
state after `requestToData` differs from the state before, contradicting
the claim that the live compilation state is never mutated. -/
theorem requestToData_mutates_layout_cache :
    (requestToData c9Req).2 ≠ c9Req ∧
    (requestToData c9Req).2.targets.map TargetModel.layoutIRModule =
      [some ⟨[]⟩] ∧
    c9Req.targets.map TargetModel.layoutIRModule = [none] :=
  ⟨by decide, by decide, by decide⟩

/-- C9 (amended): `requestToData` reads translation units and entry points
without change, writes only into the output snapshot (modules, target
components and entry points each a `map` of the corresponding input, in
order), and mutates nothing in the compilation state except possibly
populating each target program's cached IR-module-for-layout via
`getOrCreateIRModuleForLayout`; when every target's cache is already
populated, the state is unchanged. -/
theorem requestToData_frame (req : CompileRequestModel) :
    (requestToData req).2.translationUnits = req.translationUnits ∧
    (requestToData req).2.entryPoints = req.entryPoints ∧
    (requestToData req).2.targets = req.targets.map afterLayout ∧
    (requestToData req).1 =
      ⟨req.translationUnits.map tuToModule,
        req.targets.map targetToComponent,
        req.entryPoints.map epToEntryPoint⟩ ∧
    ((∀ t ∈ req.targets, t.layoutIRModule.isSome = true) →
      (requestToData req).2 = req) := by
  refine ⟨by simp [requestToData], by simp [requestToData], ?_, ?_, ?_⟩
  · simp [requestToData, extractTargets_eq]
  · simp [requestToData, extractTargets_eq]
  · intro hall
    have hmap : req.targets.map afterLayout = req.targets := by
      conv_rhs => rw [← List.map_id req.targets]
      apply List.map_congr_left
      intro t ht
      obtain ⟨mm, hmm⟩ := Option.isSome_iff_exists.mp (hall t ht)
      obtain ⟨a, b, c, d, lay, fresh⟩ := t
      simp only at hmm
      simp [afterLayout, hmm]
    simp [requestToData, extractTargets_eq, hmap]

/-- Witness for C9 at a request whose target cache is already populated. -/
theorem requestToData_frame_witness :
    (∀ t ∈ c9ReqCached.targets, t.layoutIRModule.isSome = true) ∧
    (requestToData c9ReqCached).2 = c9ReqCached :=
  ⟨by decide, (requestToData_frame c9ReqCached).2.2.2.2 (by decide)⟩

/-- C10 (confirmed): every successful iteration of `read`'s module loop
consumes at least one chunk of the module list — so the loop terminates on
every finite chunk list — and a chunk that is neither an IR-module chunk
nor an AST-module chunk is skipped without error, decoding nothing. -/
theorem readSlotStep_progress_total (c : Chunk) (rest : List Chunk) :
    (∀ o rest2, readSlotStep (c :: rest) = some (o, rest2) →
      rest2.length < (c :: rest).length) ∧
    (isIRChunk c = false → isASTChunk c = false →
      readSlotStep (c :: rest) = some (⟨false, none, none⟩, rest)) := by
  constructor
  · intro o rest2 h
    have := readSlotStep_progress c rest o rest2 h
    simp only [List.length_cons]
    omega
  · exact readSlotStep_skip c rest

/-- Witness for C10 at concrete chunks. -/
theorem readSlotStep_progress_total_witness :
    ([] : List Chunk).length < ([goodIRChunk] : List Chunk).length ∧
    readSlotStep [Chunk.data .header (.header 0)] =
      some (⟨false, none, none⟩, []) :=
  ⟨(readSlotStep_progress_total goodIRChunk []).1
      ⟨false, none, some (⟨[]⟩ : IRModuleModel)⟩ [] (by decide),
    (readSlotStep_progress_total (Chunk.data .header (.header 0)) []).2
      (by decide) (by decide)⟩

end Slang
